import Mathlib

/-!
Shallow embedding of the reloadable-library core of this repository
(src/library.rs and src/reloadable.rs), together with proofs of the
specification claims about it.

The embedding makes the effects of the Rust code explicit:

* The OS loader boundary (LoadLibraryA / GetProcAddress / FreeLibrary,
  spec section 6) is an external collaborator; it is modelled as an
  oracle `Loader`.  Each successful open yields a fresh module instance
  identified by the index of the open call, and open/close calls are
  logged as `Event`s so that "closed exactly once" claims are statable.
* `std::sync::Arc` and `arc_atomic::AtomicArc` (external crates used by
  src/reloadable.rs) are modelled by an explicit heap of reference
  counted cells `HCell`; `Arc::clone` / `AtomicArc::load` increment a
  count, dropping an `Arc` decrements it, and when a count reaches zero
  the cell's `Inner` is dropped, which drops its `Library`, which calls
  FreeLibrary (`Drop for Library`, src/library.rs lines 89-94) — this
  emits the close event.
* A Rust `panic` raised by the `unwrap_or_else` calls in
  src/reloadable.rs is modelled as the error of an `Except Panic`
  value; unwinding runs the destructors of the locals owned by the
  panicking frame, which the corresponding branches make explicit.
-/

namespace Reloadable

/-- A raw symbol address (the `*mut ()` returned by `get_ptr`). -/
abbrev Addr := Nat

/-- A NUL-free identifier string (`CStr` / `CString` in the source). -/
abbrev CString := String

/-- Observable events at the native-loader boundary: module `mid` being
opened (a successful LoadLibraryA) and being closed (FreeLibrary). -/
inductive Event where
  | openEv (mid : Nat)
  | closeEv (mid : Nat)
deriving DecidableEq, Repr

/-- The external OS loader collaborator (spec section 6): `openOk k name`
decides whether the k-th LoadLibraryA call in the process, on `name`,
succeeds; `resolve mid sym` is GetProcAddress on module instance `mid`.
Each successful open yields its own module instance (identified by the
open-call index), matching the spec's contract that every open produces
an independent instance that stays mapped until closed exactly once. -/
structure Loader where
  openOk : Nat → CString → Bool
  resolve : Nat → CString → Option Addr

/-- Ambient loader state threaded through the embedding: the oracle, the
number of LoadLibraryA calls made so far, and the log of open/close
events. -/
structure LoaderSt where
  loader : Loader
  openCalls : Nat
  events : List Event

/-- `Library` (src/library.rs): owns one loaded module. -/
structure Library where
  module : Nat
deriving DecidableEq, Repr

/-- `Library::load` (src/library.rs lines 20-29): LoadLibraryA; `none`
when the module does not exist.  A successful call returns a fresh
module instance and logs its open event. -/
def Library.load (name : CString) (s : LoaderSt) : Option Library × LoaderSt :=
  if s.loader.openOk s.openCalls name then
    (some ⟨s.openCalls⟩,
      { s with openCalls := s.openCalls + 1,
               events := s.events ++ [Event.openEv s.openCalls] })
  else
    (none, { s with openCalls := s.openCalls + 1 })

/-- `Drop for Library` (src/library.rs lines 89-94): FreeLibrary. -/
def Library.drop (lib : Library) (s : LoaderSt) : LoaderSt :=
  { s with events := s.events ++ [Event.closeEv lib.module] }

/-- `Library::get_ptr` (src/library.rs lines 83-86): GetProcAddress;
pure with respect to the event log. -/
def Library.get_ptr (L : Loader) (lib : Library) (symbol_name : CString) : Option Addr :=
  L.resolve lib.module symbol_name

/-- A Rust panic raised by one of the `unwrap_or_else` calls in
src/reloadable.rs; the constructor records which message raised it and
the formatted argument. -/
inductive Panic where
  | couldNotLoadLibrary (name : CString)
  | couldNotReloadLibrary (name : CString)
  | couldNotFindSymbol (symbol : CString)
deriving DecidableEq, Repr

/-- `Inner` (src/reloadable.rs lines 13-16): one owned `Library` plus
the resolved raw pointers, one per symbol name. -/
structure Inner where
  _lib : Library
  pointers : List Addr
deriving DecidableEq, Repr

/-- The resolution loop inside `Inner::new` (src/reloadable.rs lines
20-23): `get_ptr` on each symbol in order, panicking at the first
symbol that does not resolve. -/
def resolvePointers (L : Loader) (lib : Library) : List CString → Except Panic (List Addr)
  | [] => .ok []
  | symbol :: rest =>
    match Library.get_ptr L lib symbol with
    | some a =>
      match resolvePointers L lib rest with
      | .ok ptrs => .ok (a :: ptrs)
      | .error p => .error p
    | none => .error (.couldNotFindSymbol symbol)

/-- `Inner::new` (src/reloadable.rs lines 18-29).  On the panic path the
frame's owned `_lib` is dropped by unwinding, which closes the module
(`Drop for Library`). -/
def Inner.new (_lib : Library) (symbols : List CString) (s : LoaderSt) :
    Except Panic Inner × LoaderSt :=
  match resolvePointers s.loader _lib symbols with
  | .ok ptrs => (.ok ⟨_lib, ptrs⟩, s)
  | .error p => (.error p, Library.drop _lib s)

/-- One reference-counted heap cell: an `Arc<Inner>` allocation, with
its allocation identity `sid` (the pointer compared by `Arc::ptr_eq`),
its immutable payload and its strong count. -/
structure HCell where
  sid : Nat
  val : Inner
  rc : Nat
deriving DecidableEq, Repr

/-- The reference-counting state: the loader state, the live
`Arc<Inner>` allocations and the next fresh allocation identity. -/
structure Sys where
  st : LoaderSt
  heap : List HCell
  nextId : Nat

/-- Find the heap cell of allocation `sid`. -/
def hfind (sid : Nat) : List HCell → Option HCell
  | [] => none
  | c :: rest => if c.sid = sid then some c else hfind sid rest

/-- Increment the strong count of allocation `sid` (an `Arc::clone` or
`AtomicArc::load`). -/
def incHeap (sid : Nat) : List HCell → List HCell
  | [] => []
  | c :: rest =>
    if c.sid = sid then { c with rc := c.rc + 1 } :: rest else c :: incHeap sid rest

/-- Decrement the strong count of allocation `sid`, removing the cell
when the count reaches zero (dropping one `Arc<Inner>`). -/
def decHeap (sid : Nat) : List HCell → List HCell
  | [] => []
  | c :: rest =>
    if c.sid = sid then
      (if c.rc ≤ 1 then rest else { c with rc := c.rc - 1 } :: rest)
    else c :: decHeap sid rest

/-- `Arc::clone` / `AtomicArc::load` on allocation `sid`. -/
def Sys.incRef (sid : Nat) (σ : Sys) : Sys :=
  { σ with heap := incHeap sid σ.heap }

/-- Dropping one `Arc<Inner>` whose allocation is `sid`.  When the last
strong reference goes, the `Inner` is dropped, so its `Library` is
dropped, which calls FreeLibrary (the close event). -/
def Sys.decRef (sid : Nat) (σ : Sys) : Sys :=
  match hfind sid σ.heap with
  | none => σ
  | some c =>
    if c.rc ≤ 1 then
      { σ with heap := decHeap sid σ.heap, st := Library.drop c.val._lib σ.st }
    else
      { σ with heap := decHeap sid σ.heap }

/-- `Arc::new`: allocate a fresh cell with strong count 1. -/
def Sys.alloc (v : Inner) (σ : Sys) : Nat × Sys :=
  (σ.nextId, { σ with heap := σ.heap ++ [⟨σ.nextId, v, 1⟩], nextId := σ.nextId + 1 })

/-- The strong count of allocation `sid` (0 when the cell is gone). -/
def Sys.rcOf (σ : Sys) (sid : Nat) : Nat :=
  match hfind sid σ.heap with
  | some c => c.rc
  | none => 0

/-- Whether allocation `sid` is still live. -/
def Sys.live (σ : Sys) (sid : Nat) : Prop :=
  (hfind sid σ.heap).isSome = true

/-- The payload of allocation `sid` (a default when the cell is gone;
the reachability invariant below shows every dereferenced allocation is
live). -/
def Sys.valueOf (σ : Sys) (sid : Nat) : Inner :=
  match hfind sid σ.heap with
  | some c => c.val
  | none => ⟨⟨0⟩, []⟩

/-- The empty system: a fresh process with loader oracle `L`. -/
def Sys.empty (L : Loader) : Sys :=
  ⟨⟨L, 0, []⟩, [], 0⟩

/-- `ReloadableLibrary` (src/reloadable.rs lines 7-11): the fixed
module name, the `AtomicArc<Inner>` slot (holding one strong reference
to the allocation `inner`), and the fixed symbol list. -/
structure ReloadableLibrary where
  name : CString
  inner : Nat
  symbols : List CString
deriving DecidableEq, Repr

/-- `ReloadableLibrary::new` (src/reloadable.rs lines 38-55): load the
library (panicking when it is not found), build the `Inner` (panicking
at the first missing symbol, the unwinding closing the just-opened
module), and install it in the atomic slot with strong count 1. -/
def ReloadableLibrary.new (name : CString) (symbols : List CString) (σ : Sys) :
    Except Panic ReloadableLibrary × Sys :=
  match Library.load name σ.st with
  | (none, s') => (.error (.couldNotLoadLibrary name), { σ with st := s' })
  | (some lib, s') =>
    match Inner.new lib symbols s' with
    | (.error p, s'') => (.error p, { σ with st := s'' })
    | (.ok inner, s'') =>
      match Sys.alloc inner { σ with st := s'' } with
      | (sid, σ') => (.ok ⟨name, sid, symbols⟩, σ')

/-- `ReloadableLibrary::reload` (src/reloadable.rs lines 75-81): load a
fresh module instance (panicking when it is not found), build a fresh
`Inner` (panicking at the first missing symbol), and `store` it into
the atomic slot — the store drops the slot's previous strong reference.
The returned handle is the updated `self`. -/
def ReloadableLibrary.reload (h : ReloadableLibrary) (σ : Sys) :
    Except Panic ReloadableLibrary × Sys :=
  match Library.load h.name σ.st with
  | (none, s') => (.error (.couldNotReloadLibrary h.name), { σ with st := s' })
  | (some lib, s') =>
    match Inner.new lib h.symbols s' with
    | (.error p, s'') => (.error p, { σ with st := s'' })
    | (.ok inner, s'') =>
      match Sys.alloc inner { σ with st := s'' } with
      | (sid, σ') => (.ok { h with inner := sid }, Sys.decRef h.inner σ')

/-- `ReloadableSymbol` (src/reloadable.rs lines 84-89): the index of
the symbol in the fixed list and the cursor's own `AtomicArc<Inner>`
cache (holding one strong reference to allocation `raw_lib`); the
borrowed `reloadable_lib` is passed explicitly where needed. -/
structure ReloadableSymbol where
  symbol_index : Nat
  raw_lib : Nat
deriving DecidableEq, Repr

/-- `ReloadableLibrary::get_symbol` (src/reloadable.rs lines 57-73):
find the first index whose entry equals `symbol` (value equality on
`CStr`), returning `none` when absent; on success clone the current
snapshot reference into the cursor's cache.  No loader call is made. -/
def ReloadableLibrary.get_symbol (h : ReloadableLibrary) (symbol : CString) (σ : Sys) :
    Option ReloadableSymbol × Sys :=
  match h.symbols.findIdx? (fun x => x == symbol) with
  | none => (none, σ)
  | some symbol_index =>
    (some ⟨symbol_index, h.inner⟩, Sys.incRef h.inner σ)

/-- `LoadedSymbol` (src/reloadable.rs lines 108-124): one strong
reference to the snapshot allocation plus the raw address taken from it
(`RawSymbol::from_ptr`). -/
structure LoadedSymbol where
  _lib : Nat
  symbol : Addr
deriving DecidableEq, Repr

/-- `ReloadableSymbol::get_loaded` (src/reloadable.rs lines 91-105):
load the cached reference (`my_lib`) and the handle's current reference
(`other_lib`); when `Arc::ptr_eq` finds them distinct, store a clone of
the current one into the cache (dropping the previously cached
reference) and pin the current one; otherwise pin the cached one.  The
temporaries are dropped when the frame ends.  Returns the guard, the
cursor with its (possibly) updated cache, and the new state. -/
def ReloadableSymbol.get_loaded (c : ReloadableSymbol) (h : ReloadableLibrary) (σ : Sys) :
    LoadedSymbol × ReloadableSymbol × Sys :=
  let σ1 := Sys.incRef c.raw_lib σ
  let σ2 := Sys.incRef h.inner σ1
  if c.raw_lib = h.inner then
    let σ3 := Sys.decRef h.inner σ2
    (⟨c.raw_lib, (σ3.valueOf c.raw_lib).pointers.getD c.symbol_index 0⟩, c, σ3)
  else
    let σ3 := Sys.incRef h.inner σ2
    let σ4 := Sys.decRef c.raw_lib σ3
    let σ5 := Sys.decRef c.raw_lib σ4
    (⟨h.inner, (σ5.valueOf h.inner).pointers.getD c.symbol_index 0⟩,
      { c with raw_lib := h.inner }, σ5)

/-- A client configuration: the handle, the cursors obtained so far
(`none` marks a failed lookup or a dropped cursor), the guards obtained
so far (`none` marks a dropped guard), and the system state. -/
structure Config where
  handle : ReloadableLibrary
  cursors : List (Option ReloadableSymbol)
  guards : List (Option LoadedSymbol)
  σ : Sys

/-- One client operation against the library. -/
inductive Cmd where
  | reload
  | mkCursor (name : CString)
  | pin (i : Nat)
  | dropGuard (i : Nat)
  | dropCursor (i : Nat)
deriving DecidableEq, Repr

/-- Execute one client operation.  A failed reload leaves the handle
and the heap untouched (the panic unwinds past the caller); dropping an
absent cursor or guard is a no-op. -/
def Config.step (cfg : Config) : Cmd → Config
  | .reload =>
    match ReloadableLibrary.reload cfg.handle cfg.σ with
    | (.ok h', σ') => { cfg with handle := h', σ := σ' }
    | (.error _, σ') => { cfg with σ := σ' }
  | .mkCursor name =>
    match ReloadableLibrary.get_symbol cfg.handle name cfg.σ with
    | (oc, σ') => { cfg with cursors := cfg.cursors ++ [oc], σ := σ' }
  | .pin i =>
    match cfg.cursors[i]? with
    | some (some c) =>
      match ReloadableSymbol.get_loaded c cfg.handle cfg.σ with
      | (g, c', σ') =>
        { cfg with cursors := cfg.cursors.set i (some c'),
                   guards := cfg.guards ++ [some g], σ := σ' }
    | _ => cfg
  | .dropGuard i =>
    match cfg.guards[i]? with
    | some (some g) =>
      { cfg with guards := cfg.guards.set i none, σ := Sys.decRef g._lib cfg.σ }
    | _ => cfg
  | .dropCursor i =>
    match cfg.cursors[i]? with
    | some (some c) =>
      { cfg with cursors := cfg.cursors.set i none, σ := Sys.decRef c.raw_lib cfg.σ }
    | _ => cfg

/-- Execute a list of client operations in order. -/
def Config.run (cfg : Config) : List Cmd → Config
  | [] => cfg
  | cmd :: rest => (cfg.step cmd).run rest

/-- Construct the initial configuration: `ReloadableLibrary::new` in a
fresh process, `none` when construction panics. -/
def initConfig (L : Loader) (name : CString) (symbols : List CString) : Option Config :=
  match ReloadableLibrary.new name symbols (Sys.empty L) with
  | (.ok h, σ) => some ⟨h, [], [], σ⟩
  | (.error _, _) => none

/-- Count of open events for module `mid`. -/
def opensOf (evs : List Event) (mid : Nat) : Nat :=
  evs.countP (fun e => decide (e = Event.openEv mid))

/-- Count of close events for module `mid`. -/
def closesOf (evs : List Event) (mid : Nat) : Nat :=
  evs.countP (fun e => decide (e = Event.closeEv mid))

/-- How many live heap cells hold module `mid`. -/
def heapCount (σ : Sys) (mid : Nat) : Nat :=
  σ.heap.countP (fun c => decide (c.val._lib.module = mid))

/-- Sum of `f` over the present entries of a list of options. -/
def optCount (f : α → Nat) : List (Option α) → Nat
  | [] => 0
  | none :: rest => optCount f rest
  | some a :: rest => f a + optCount f rest

/-- The number of strong references the configuration holds on
allocation `sid`: the handle's atomic slot, the cursors' caches and the
guards. -/
def refsTo (cfg : Config) (sid : Nat) : Nat :=
  (if cfg.handle.inner = sid then 1 else 0)
    + optCount (fun c => if c.raw_lib = sid then 1 else 0) cfg.cursors
    + optCount (fun g => if g._lib = sid then 1 else 0) cfg.guards

/-- The allocation identities present in a heap. -/
def keysOf (h : List HCell) : List Nat := h.map (fun c => c.sid)

/-! ### Basic lemmas about the option-list counters -/

theorem optCount_append (f : α → Nat) (l l' : List (Option α)) :
    optCount f (l ++ l') = optCount f l + optCount f l' := by
  induction l with
  | nil => simp [optCount]
  | cons a rest ih =>
    cases a with
    | none => simpa [optCount] using ih
    | some a => simp [optCount, ih]; omega

theorem optCount_getElem (f : α → Nat) (l : List (Option α)) (i : Nat) (a : α)
    (h : l[i]? = some (some a)) : f a ≤ optCount f l := by
  induction l generalizing i with
  | nil => simp at h
  | cons b rest ih =>
    cases i with
    | zero =>
      simp at h
      subst h
      simp [optCount]
    | succ j =>
      simp at h
      have := ih j h
      cases b <;> simp [optCount] <;> omega

theorem optCount_set_none (f : α → Nat) (l : List (Option α)) (i : Nat) (a : α)
    (h : l[i]? = some (some a)) :
    optCount f (l.set i none) + f a = optCount f l := by
  induction l generalizing i with
  | nil => simp at h
  | cons b rest ih =>
    cases i with
    | zero =>
      simp at h
      subst h
      simp [optCount]
      omega
    | succ j =>
      simp at h
      have := ih j h
      cases b <;> simp [optCount, List.set] <;> omega

theorem optCount_set_some (f : α → Nat) (l : List (Option α)) (i : Nat) (a b : α)
    (h : l[i]? = some (some a)) :
    optCount f (l.set i (some b)) + f a = optCount f l + f b := by
  induction l generalizing i with
  | nil => simp at h
  | cons x rest ih =>
    cases i with
    | zero =>
      simp at h
      subst h
      simp [optCount]
      omega
    | succ j =>
      simp at h
      have := ih j h
      cases x <;> simp [optCount, List.set] <;> omega

/-! ### Lemmas about the heap primitives -/

theorem hfind_incHeap (x y : Nat) (h : List HCell) :
    hfind y (incHeap x h) =
      if y = x then (hfind x h).map (fun c => { c with rc := c.rc + 1 })
      else hfind y h := by
  induction h with
  | nil => by_cases hyx : y = x <;> simp [hfind, incHeap, hyx]
  | cons c rest ih =>
    by_cases hcx : c.sid = x
    · rw [incHeap, if_pos hcx]
      by_cases hyx : y = x
      · have hcy : c.sid = y := hcx.trans hyx.symm
        rw [if_pos hyx, hfind, if_pos hcy, hfind, if_pos hcx]
        rfl
      · have hcy : ¬ c.sid = y := fun hc => hyx (hc.symm.trans hcx)
        rw [if_neg hyx, hfind, if_neg hcy, hfind, if_neg hcy]
    · rw [incHeap, if_neg hcx]
      by_cases hcy : c.sid = y
      · have hyx : ¬ y = x := fun hyx => hcx (hcy.trans hyx)
        rw [if_neg hyx, hfind, if_pos hcy, hfind, if_pos hcy]
      · rw [hfind, if_neg hcy, ih]
        by_cases hyx : y = x
        · rw [if_pos hyx, if_pos hyx, hfind, if_neg hcx]
        · rw [if_neg hyx, if_neg hyx, hfind, if_neg hcy]

theorem incHeap_of_none (x : Nat) (h : List HCell) (hn : hfind x h = none) :
    incHeap x h = h := by
  induction h with
  | nil => simp [incHeap]
  | cons c rest ih =>
    by_cases hcx : c.sid = x
    · simp [hfind, hcx] at hn
    · simp [hfind, hcx] at hn
      simp [incHeap, hcx, ih hn]

theorem decHeap_of_none (x : Nat) (h : List HCell) (hn : hfind x h = none) :
    decHeap x h = h := by
  induction h with
  | nil => simp [decHeap]
  | cons c rest ih =>
    by_cases hcx : c.sid = x
    · simp [hfind, hcx] at hn
    · simp [hfind, hcx] at hn
      simp [decHeap, hcx, ih hn]

theorem hfind_decHeap_ne (x y : Nat) (h : List HCell) (hyx : y ≠ x) :
    hfind y (decHeap x h) = hfind y h := by
  induction h with
  | nil => simp [decHeap]
  | cons c rest ih =>
    by_cases hcx : c.sid = x
    · have hcy : ¬ c.sid = y := fun hc => hyx (hc.symm.trans hcx)
      rw [decHeap, if_pos hcx, hfind, if_neg hcy]
      by_cases hrc : c.rc ≤ 1
      · rw [if_pos hrc]
      · rw [if_neg hrc, hfind, if_neg hcy]
    · rw [decHeap, if_neg hcx]
      by_cases hcy : c.sid = y
      · rw [hfind, if_pos hcy, hfind, if_pos hcy]
      · rw [hfind, if_neg hcy, hfind, if_neg hcy, ih]

theorem keysOf_incHeap (x : Nat) (h : List HCell) :
    keysOf (incHeap x h) = keysOf h := by
  induction h with
  | nil => simp [incHeap]
  | cons c rest ih =>
    by_cases hcx : c.sid = x <;> simp [incHeap, keysOf, hcx] <;>
      simpa [keysOf] using ih

theorem hfind_eq_none_of_not_mem_keys (x : Nat) (h : List HCell)
    (hx : x ∉ keysOf h) : hfind x h = none := by
  induction h with
  | nil => simp [hfind]
  | cons c rest ih =>
    simp only [keysOf, List.map_cons, List.mem_cons, not_or] at hx
    have hcx : ¬ c.sid = x := fun hc => hx.1 hc.symm
    rw [hfind, if_neg hcx]
    exact ih hx.2

theorem hfind_decHeap_eq (x : Nat) (h : List HCell) (c : HCell)
    (hnd : (keysOf h).Nodup) (hf : hfind x h = some c) :
    hfind x (decHeap x h) =
      if c.rc ≤ 1 then none else some { c with rc := c.rc - 1 } := by
  induction h with
  | nil => simp [hfind] at hf
  | cons b rest ih =>
    rw [keysOf, List.map_cons, List.nodup_cons] at hnd
    by_cases hbx : b.sid = x
    · rw [hfind, if_pos hbx] at hf
      have hbc : b = c := by exact Option.some.inj hf
      subst hbc
      rw [decHeap, if_pos hbx]
      by_cases hrc : b.rc ≤ 1
      · rw [if_pos hrc, if_pos hrc]
        exact hfind_eq_none_of_not_mem_keys x rest (hbx ▸ hnd.1)
      · rw [if_neg hrc, if_neg hrc, hfind, if_pos hbx]
    · rw [hfind, if_neg hbx] at hf
      rw [decHeap, if_neg hbx, hfind, if_neg hbx]
      exact ih hnd.2 hf

theorem keysOf_decHeap_sublist (x : Nat) (h : List HCell) :
    List.Sublist (keysOf (decHeap x h)) (keysOf h) := by
  induction h with
  | nil => exact List.Sublist.refl _
  | cons c rest ih =>
    by_cases hcx : c.sid = x
    · rw [decHeap, if_pos hcx]
      by_cases hrc : c.rc ≤ 1
      · rw [if_pos hrc]
        exact List.sublist_cons_of_sublist _ (List.Sublist.refl _)
      · rw [if_neg hrc, keysOf, List.map_cons]
        exact List.Sublist.cons₂ _ (List.Sublist.refl _)
    · rw [decHeap, if_neg hcx, keysOf, List.map_cons, keysOf, List.map_cons]
      exact List.Sublist.cons₂ _ ih

theorem keysOf_decHeap_stay (x : Nat) (h : List HCell) (c : HCell)
    (hf : hfind x h = some c) (hrc : ¬ c.rc ≤ 1) :
    keysOf (decHeap x h) = keysOf h := by
  induction h with
  | nil => simp [hfind] at hf
  | cons b rest ih =>
    by_cases hbx : b.sid = x
    · rw [hfind, if_pos hbx] at hf
      have hbc : b = c := Option.some.inj hf
      subst hbc
      rw [decHeap, if_pos hbx, if_neg hrc, keysOf, List.map_cons, keysOf, List.map_cons]
    · rw [hfind, if_neg hbx] at hf
      rw [decHeap, if_neg hbx, keysOf, List.map_cons, keysOf, List.map_cons]
      exact congrArg (fun l => b.sid :: l) (ih hf)

theorem hfind_append (x : Nat) (h h' : List HCell) :
    hfind x (h ++ h') = (hfind x h).or (hfind x h') := by
  induction h with
  | nil => simp [hfind]
  | cons c rest ih =>
    by_cases hcx : c.sid = x <;> simp [hfind, hcx, ih]

/-! ### Counting module occurrences in the heap -/

/-- The predicate counted by `heapCount`. -/
def midP (mid : Nat) : HCell → Bool := fun c => decide (c.val._lib.module = mid)

theorem countMod_incHeap (x mid : Nat) (h : List HCell) :
    (incHeap x h).countP (midP mid) = h.countP (midP mid) := by
  induction h with
  | nil => rfl
  | cons c rest ih =>
    by_cases hcx : c.sid = x
    · rw [incHeap, if_pos hcx, List.countP_cons, List.countP_cons]
      rfl
    · rw [incHeap, if_neg hcx, List.countP_cons, List.countP_cons, ih]

theorem countMod_decHeap_stay (x mid : Nat) (h : List HCell) (c : HCell)
    (hf : hfind x h = some c) (hrc : ¬ c.rc ≤ 1) :
    (decHeap x h).countP (midP mid) = h.countP (midP mid) := by
  induction h with
  | nil => simp [hfind] at hf
  | cons b rest ih =>
    by_cases hbx : b.sid = x
    · rw [hfind, if_pos hbx] at hf
      have hbc : b = c := Option.some.inj hf
      subst hbc
      rw [decHeap, if_pos hbx, if_neg hrc, List.countP_cons, List.countP_cons]
      rfl
    · rw [hfind, if_neg hbx] at hf
      rw [decHeap, if_neg hbx, List.countP_cons, List.countP_cons, ih hf]

theorem countMod_decHeap_rem (x mid : Nat) (h : List HCell) (c : HCell)
    (hf : hfind x h = some c) (hrc : c.rc ≤ 1) :
    (decHeap x h).countP (midP mid)
        + (if c.val._lib.module = mid then 1 else 0) = h.countP (midP mid) := by
  induction h with
  | nil => simp [hfind] at hf
  | cons b rest ih =>
    by_cases hbx : b.sid = x
    · rw [hfind, if_pos hbx] at hf
      have hbc : b = c := Option.some.inj hf
      subst hbc
      rw [decHeap, if_pos hbx, if_pos hrc, List.countP_cons]
      simp [midP]
    · rw [hfind, if_neg hbx] at hf
      rw [decHeap, if_neg hbx, List.countP_cons, List.countP_cons]
      have := ih hf
      omega

/-! ### Lemmas about the `Sys` reference-count operations -/

theorem Sys.incRef_st (σ : Sys) (x : Nat) : (σ.incRef x).st = σ.st := rfl

theorem Sys.incRef_nextId (σ : Sys) (x : Nat) : (σ.incRef x).nextId = σ.nextId := rfl

theorem Sys.keysOf_incRef (σ : Sys) (x : Nat) :
    keysOf (σ.incRef x).heap = keysOf σ.heap := keysOf_incHeap x σ.heap

theorem Sys.heapCount_incRef (σ : Sys) (x mid : Nat) :
    heapCount (σ.incRef x) mid = heapCount σ mid := countMod_incHeap x mid σ.heap

theorem Sys.live_incRef (σ : Sys) (x y : Nat) : (σ.incRef x).live y ↔ σ.live y := by
  simp only [Sys.live, Sys.incRef]
  rw [hfind_incHeap]
  by_cases hyx : y = x
  · rw [if_pos hyx, hyx]
    cases hfind x σ.heap <;> simp
  · rw [if_neg hyx]

theorem Sys.valueOf_incRef (σ : Sys) (x y : Nat) :
    (σ.incRef x).valueOf y = σ.valueOf y := by
  simp only [Sys.valueOf, Sys.incRef]
  rw [hfind_incHeap]
  by_cases hyx : y = x
  · rw [if_pos hyx, hyx]
    cases hfind x σ.heap <;> rfl
  · rw [if_neg hyx]

theorem Sys.rcOf_incRef (σ : Sys) (x y : Nat) (hx : σ.live x) :
    (σ.incRef x).rcOf y = if y = x then σ.rcOf y + 1 else σ.rcOf y := by
  simp only [Sys.rcOf, Sys.incRef]
  rw [hfind_incHeap]
  by_cases hyx : y = x
  · rw [if_pos hyx, if_pos hyx, hyx]
    simp only [Sys.live] at hx
    cases hc : hfind x σ.heap with
    | none => rw [hc] at hx; simp at hx
    | some c => rfl
  · rw [if_neg hyx, if_neg hyx]

theorem Sys.decRef_of_none (σ : Sys) (x : Nat) (hx : hfind x σ.heap = none) :
    σ.decRef x = σ := by
  simp only [Sys.decRef, hx]

theorem Sys.decRef_stay (σ : Sys) (x : Nat) (c : HCell)
    (hf : hfind x σ.heap = some c) (hrc : ¬ c.rc ≤ 1) :
    σ.decRef x = { σ with heap := decHeap x σ.heap } := by
  simp only [Sys.decRef, hf, hrc, if_neg, ite_false]

theorem Sys.decRef_rem (σ : Sys) (x : Nat) (c : HCell)
    (hf : hfind x σ.heap = some c) (hrc : c.rc ≤ 1) :
    σ.decRef x = { σ with heap := decHeap x σ.heap,
                          st := Library.drop c.val._lib σ.st } := by
  simp only [Sys.decRef, hf, hrc, ite_true]

theorem Sys.alloc_fst (σ : Sys) (v : Inner) : (σ.alloc v).1 = σ.nextId := rfl

theorem Sys.alloc_st (σ : Sys) (v : Inner) : (σ.alloc v).2.st = σ.st := rfl

theorem Sys.alloc_nextId (σ : Sys) (v : Inner) :
    (σ.alloc v).2.nextId = σ.nextId + 1 := rfl

theorem Sys.keysOf_alloc (σ : Sys) (v : Inner) :
    keysOf (σ.alloc v).2.heap = keysOf σ.heap ++ [σ.nextId] := by
  simp [Sys.alloc, keysOf]

theorem Sys.heapCount_alloc (σ : Sys) (v : Inner) (mid : Nat) :
    heapCount (σ.alloc v).2 mid
      = heapCount σ mid + (if v._lib.module = mid then 1 else 0) := by
  simp only [heapCount, Sys.alloc, List.countP_append, List.countP_cons,
    List.countP_nil, midP]
  simp [midP]

theorem Sys.hfind_alloc (σ : Sys) (v : Inner) (y : Nat) :
    hfind y (σ.alloc v).2.heap
      = (hfind y σ.heap).or (if σ.nextId = y then some ⟨σ.nextId, v, 1⟩ else none) := by
  simp only [Sys.alloc]
  rw [hfind_append]
  rfl

theorem Sys.decRef_loader (σ : Sys) (x : Nat) :
    (σ.decRef x).st.loader = σ.st.loader := by
  unfold Sys.decRef
  cases hfind x σ.heap with
  | none => rfl
  | some c => by_cases hrc : c.rc ≤ 1 <;> simp [hrc, Library.drop]

theorem Sys.decRef_openCalls (σ : Sys) (x : Nat) :
    (σ.decRef x).st.openCalls = σ.st.openCalls := by
  unfold Sys.decRef
  cases hfind x σ.heap with
  | none => rfl
  | some c => by_cases hrc : c.rc ≤ 1 <;> simp [hrc, Library.drop]

theorem Sys.decRef_nextId (σ : Sys) (x : Nat) :
    (σ.decRef x).nextId = σ.nextId := by
  unfold Sys.decRef
  cases hfind x σ.heap with
  | none => rfl
  | some c => by_cases hrc : c.rc ≤ 1 <;> simp [hrc]

theorem Sys.rcOf_decRef (σ : Sys) (x y : Nat) (hnd : (keysOf σ.heap).Nodup) :
    (σ.decRef x).rcOf y = if y = x then σ.rcOf x - 1 else σ.rcOf y := by
  by_cases hyx : y = x
  · subst hyx
    rw [if_pos rfl]
    cases hc : hfind y σ.heap with
    | none =>
      rw [Sys.decRef_of_none σ y hc]
      simp [Sys.rcOf, hc]
    | some c =>
      by_cases hrc : c.rc ≤ 1
      · rw [Sys.decRef_rem σ y c hc hrc]
        simp only [Sys.rcOf]
        rw [hfind_decHeap_eq y σ.heap c hnd hc, if_pos hrc, hc]
        simp
        omega
      · rw [Sys.decRef_stay σ y c hc hrc]
        simp only [Sys.rcOf]
        rw [hfind_decHeap_eq y σ.heap c hnd hc, if_neg hrc, hc]
  · rw [if_neg hyx]
    cases hc : hfind x σ.heap with
    | none => rw [Sys.decRef_of_none σ x hc]
    | some c =>
      by_cases hrc : c.rc ≤ 1
      · rw [Sys.decRef_rem σ x c hc hrc]
        simp only [Sys.rcOf]
        rw [hfind_decHeap_ne x y σ.heap hyx]
      · rw [Sys.decRef_stay σ x c hc hrc]
        simp only [Sys.rcOf]
        rw [hfind_decHeap_ne x y σ.heap hyx]

theorem Sys.valueOf_decRef_ne (σ : Sys) (x y : Nat) (hyx : y ≠ x) :
    (σ.decRef x).valueOf y = σ.valueOf y := by
  cases hc : hfind x σ.heap with
  | none => rw [Sys.decRef_of_none σ x hc]
  | some c =>
    by_cases hrc : c.rc ≤ 1
    · rw [Sys.decRef_rem σ x c hc hrc]
      simp only [Sys.valueOf]
      rw [hfind_decHeap_ne x y σ.heap hyx]
    · rw [Sys.decRef_stay σ x c hc hrc]
      simp only [Sys.valueOf]
      rw [hfind_decHeap_ne x y σ.heap hyx]

theorem Sys.valueOf_decRef_stay (σ : Sys) (x : Nat) (c : HCell)
    (hnd : (keysOf σ.heap).Nodup) (hf : hfind x σ.heap = some c) (hrc : ¬ c.rc ≤ 1) :
    ∀ y, (σ.decRef x).valueOf y = σ.valueOf y := by
  intro y
  by_cases hyx : y = x
  · subst hyx
    rw [Sys.decRef_stay σ y c hf hrc]
    simp only [Sys.valueOf]
    rw [hfind_decHeap_eq y σ.heap c hnd hf, if_neg hrc, hf]
  · exact Sys.valueOf_decRef_ne σ x y hyx

theorem Sys.live_decRef_ne (σ : Sys) (x y : Nat) (hyx : y ≠ x) :
    ((σ.decRef x).live y ↔ σ.live y) := by
  cases hc : hfind x σ.heap with
  | none => rw [Sys.decRef_of_none σ x hc]
  | some c =>
    by_cases hrc : c.rc ≤ 1
    · rw [Sys.decRef_rem σ x c hc hrc]
      simp only [Sys.live]
      rw [hfind_decHeap_ne x y σ.heap hyx]
    · rw [Sys.decRef_stay σ x c hc hrc]
      simp only [Sys.live]
      rw [hfind_decHeap_ne x y σ.heap hyx]

theorem Sys.live_decRef_stay (σ : Sys) (x : Nat) (c : HCell)
    (hnd : (keysOf σ.heap).Nodup) (hf : hfind x σ.heap = some c) (hrc : ¬ c.rc ≤ 1) :
    ∀ y, ((σ.decRef x).live y ↔ σ.live y) := by
  intro y
  by_cases hyx : y = x
  · subst hyx
    rw [Sys.decRef_stay σ y c hf hrc]
    simp only [Sys.live]
    rw [hfind_decHeap_eq y σ.heap c hnd hf, if_neg hrc, hf]
    simp
  · exact Sys.live_decRef_ne σ x y hyx

theorem Sys.not_live_decRef_rem (σ : Sys) (x : Nat) (c : HCell)
    (hnd : (keysOf σ.heap).Nodup) (hf : hfind x σ.heap = some c) (hrc : c.rc ≤ 1) :
    ¬ (σ.decRef x).live x := by
  rw [Sys.decRef_rem σ x c hf hrc]
  simp only [Sys.live]
  rw [hfind_decHeap_eq x σ.heap c hnd hf, if_pos hrc]
  simp

theorem Sys.events_decRef_stay (σ : Sys) (x : Nat) (c : HCell)
    (hf : hfind x σ.heap = some c) (hrc : ¬ c.rc ≤ 1) :
    (σ.decRef x).st = σ.st := by
  rw [Sys.decRef_stay σ x c hf hrc]

theorem Sys.events_decRef_rem (σ : Sys) (x : Nat) (c : HCell)
    (hf : hfind x σ.heap = some c) (hrc : c.rc ≤ 1) :
    (σ.decRef x).st.events = σ.st.events ++ [Event.closeEv c.val._lib.module] := by
  rw [Sys.decRef_rem σ x c hf hrc]
  rfl

theorem Sys.heapCount_decRef_stay (σ : Sys) (x : Nat) (c : HCell)
    (hf : hfind x σ.heap = some c) (hrc : ¬ c.rc ≤ 1) (mid : Nat) :
    heapCount (σ.decRef x) mid = heapCount σ mid := by
  rw [Sys.decRef_stay σ x c hf hrc]
  exact countMod_decHeap_stay x mid σ.heap c hf hrc

theorem Sys.heapCount_decRef_rem (σ : Sys) (x : Nat) (c : HCell)
    (hf : hfind x σ.heap = some c) (hrc : c.rc ≤ 1) (mid : Nat) :
    heapCount (σ.decRef x) mid + (if c.val._lib.module = mid then 1 else 0)
      = heapCount σ mid := by
  rw [Sys.decRef_rem σ x c hf hrc]
  exact countMod_decHeap_rem x mid σ.heap c hf hrc

theorem Sys.keysOf_decRef_sublist (σ : Sys) (x : Nat) :
    List.Sublist (keysOf (σ.decRef x).heap) (keysOf σ.heap) := by
  unfold Sys.decRef
  cases hfind x σ.heap with
  | none => exact List.Sublist.refl _
  | some c =>
    by_cases hrc : c.rc ≤ 1 <;> simp only [hrc, ite_true, ite_false] <;>
      exact keysOf_decHeap_sublist x σ.heap

/-! ### Event counters -/

theorem opensOf_append (evs evs' : List Event) (mid : Nat) :
    opensOf (evs ++ evs') mid = opensOf evs mid + opensOf evs' mid :=
  List.countP_append _ _ _

theorem closesOf_append (evs evs' : List Event) (mid : Nat) :
    closesOf (evs ++ evs') mid = closesOf evs mid + closesOf evs' mid :=
  List.countP_append _ _ _

theorem opensOf_openEv (m mid : Nat) :
    opensOf [Event.openEv m] mid = if m = mid then 1 else 0 := by
  simp [opensOf, List.countP_cons]

theorem opensOf_closeEv (m mid : Nat) : opensOf [Event.closeEv m] mid = 0 := by
  simp [opensOf, List.countP_cons]

theorem closesOf_openEv (m mid : Nat) : closesOf [Event.openEv m] mid = 0 := by
  simp [closesOf, List.countP_cons]

theorem closesOf_closeEv (m mid : Nat) :
    closesOf [Event.closeEv m] mid = if m = mid then 1 else 0 := by
  simp [closesOf, List.countP_cons]

theorem opensOf_pos_of_mem (evs : List Event) (mid : Nat)
    (h : Event.openEv mid ∈ evs) : 0 < opensOf evs mid := by
  unfold opensOf
  exact List.countP_pos.mpr ⟨Event.openEv mid, h, by simp⟩

theorem mem_of_opensOf_pos (evs : List Event) (mid : Nat)
    (h : 0 < opensOf evs mid) : Event.openEv mid ∈ evs := by
  unfold opensOf at h
  obtain ⟨a, ha, hp⟩ := List.countP_pos.mp h
  simp only [decide_eq_true_eq] at hp
  exact hp ▸ ha

/-! ### The resolution loop -/

theorem resolvePointers_ok_length (L : Loader) (lib : Library) (syms : List CString)
    (ptrs : List Addr) (h : resolvePointers L lib syms = .ok ptrs) :
    ptrs.length = syms.length := by
  induction syms generalizing ptrs with
  | nil =>
    rw [resolvePointers] at h
    cases h
    rfl
  | cons s rest ih =>
    rw [resolvePointers] at h
    cases ha : Library.get_ptr L lib s with
    | none => rw [ha] at h; cases h
    | some a =>
      rw [ha] at h
      cases hr : resolvePointers L lib rest with
      | error p => rw [hr] at h; cases h
      | ok ps =>
        rw [hr] at h
        cases h
        simp [ih ps hr]

theorem resolvePointers_ok_getD (L : Loader) (lib : Library) (syms : List CString)
    (ptrs : List Addr) (h : resolvePointers L lib syms = .ok ptrs) :
    ∀ i, i < syms.length →
      L.resolve lib.module (syms.getD i "") = some (ptrs.getD i 0) := by
  induction syms generalizing ptrs with
  | nil => intro i hi; simp at hi
  | cons s rest ih =>
    rw [resolvePointers] at h
    cases ha : Library.get_ptr L lib s with
    | none => rw [ha] at h; cases h
    | some a =>
      rw [ha] at h
      cases hr : resolvePointers L lib rest with
      | error p => rw [hr] at h; cases h
      | ok ps =>
        rw [hr] at h
        cases h
        intro i hi
        cases i with
        | zero =>
          simpa [Library.get_ptr] using ha
        | succ j =>
          simp only [List.getD_cons_succ]
          exact ih ps hr j (by simpa using hi)

theorem resolvePointers_ok_of_all (L : Loader) (lib : Library) (syms : List CString)
    (h : ∀ s ∈ syms, (L.resolve lib.module s).isSome = true) :
    ∃ ptrs, resolvePointers L lib syms = .ok ptrs := by
  induction syms with
  | nil => exact ⟨[], rfl⟩
  | cons s rest ih =>
    have hs := h s (List.mem_cons_self _ _)
    cases ha : L.resolve lib.module s with
    | none => rw [ha] at hs; simp at hs
    | some a =>
      obtain ⟨ps, hps⟩ := ih (fun x hx => h x (List.mem_cons_of_mem _ hx))
      refine ⟨a :: ps, ?_⟩
      rw [resolvePointers]
      have : Library.get_ptr L lib s = some a := ha
      rw [this, hps]

theorem resolvePointers_error_spec (L : Loader) (lib : Library) (syms : List CString)
    (p : Panic) (h : resolvePointers L lib syms = .error p) :
    ∃ pre sym suf, syms = pre ++ sym :: suf ∧
      (∀ s ∈ pre, (L.resolve lib.module s).isSome = true) ∧
      L.resolve lib.module sym = none ∧ p = .couldNotFindSymbol sym := by
  induction syms with
  | nil => rw [resolvePointers] at h; cases h
  | cons s rest ih =>
    rw [resolvePointers] at h
    cases ha : Library.get_ptr L lib s with
    | none =>
      rw [ha] at h
      cases h
      exact ⟨[], s, rest, rfl, by simp, ha, rfl⟩
    | some a =>
      rw [ha] at h
      cases hr : resolvePointers L lib rest with
      | ok ps => rw [hr] at h; cases h
      | error q =>
        rw [hr] at h
        cases h
        obtain ⟨pre, sym, suf, hsp, hpre, hsym, hq⟩ := ih hr
        refine ⟨s :: pre, sym, suf, by rw [hsp, List.cons_append], ?_, hsym, hq⟩
        intro x hx
        rcases List.mem_cons.mp hx with hx | hx
        · subst hx
          simp [Library.get_ptr] at ha ⊢
          rw [show L.resolve lib.module x = some a from ha]
          rfl
        · exact hpre x hx

/-! ### `Inner::new` characterization -/

theorem Inner.new_ok (lib : Library) (syms : List CString) (s : LoaderSt)
    (inner : Inner) (s' : LoaderSt) (h : Inner.new lib syms s = (.ok inner, s')) :
    s' = s ∧ inner._lib = lib ∧ resolvePointers s.loader lib syms = .ok inner.pointers := by
  unfold Inner.new at h
  cases hr : resolvePointers s.loader lib syms with
  | ok ptrs =>
    rw [hr] at h
    cases h
    exact ⟨rfl, rfl, rfl⟩
  | error p => rw [hr] at h; cases h

theorem Inner.new_error (lib : Library) (syms : List CString) (s : LoaderSt)
    (p : Panic) (s' : LoaderSt) (h : Inner.new lib syms s = (.error p, s')) :
    s' = Library.drop lib s ∧ resolvePointers s.loader lib syms = .error p := by
  unfold Inner.new at h
  cases hr : resolvePointers s.loader lib syms with
  | ok ptrs => rw [hr] at h; cases h
  | error q =>
    rw [hr] at h
    cases h
    exact ⟨rfl, rfl⟩

/-! ### Symbol lookup -/

theorem findIdx_none_iff (l : List CString) (sym : CString) :
    l.findIdx? (fun x => x == sym) = none ↔ sym ∉ l := by
  rw [List.findIdx?_eq_none_iff]
  constructor
  · intro h hm
    have := h sym hm
    simp at this
  · intro h x hx
    simp only [beq_eq_false_iff_ne, ne_eq]
    intro hxs
    exact h (hxs ▸ hx)

theorem findIdx_first (l : List CString) (sym : CString) (i : Nat)
    (h : l.findIdx? (fun x => x == sym) = some i) :
    i < l.length ∧ l.getD i "" = sym ∧ ∀ j, j < i → l.getD j "" ≠ sym := by
  induction l generalizing i with
  | nil => simp at h
  | cons a rest ih =>
    rw [List.findIdx?_cons] at h
    by_cases ha : a = sym
    · rw [if_pos (by simp [ha])] at h
      cases h
      exact ⟨by simp, by simp [ha], fun j hj => absurd hj (by omega)⟩
    · rw [if_neg (by simp [ha]), List.findIdx?_succ] at h
      cases hr : rest.findIdx? (fun x => x == sym) with
      | none => rw [hr] at h; simp at h
      | some k =>
        rw [hr] at h
        simp only [Option.map_some'] at h
        have hik : i = k + 1 := (Option.some.inj h).symm
        subst hik
        obtain ⟨hk1, hk2, hk3⟩ := ih k hr
        refine ⟨by simp; omega, by simpa using hk2, ?_⟩
        intro j hj
        cases j with
        | zero => simpa using ha
        | succ j' =>
          rw [List.getD_cons_succ]
          exact hk3 j' (by omega)

/-! ### The reachability invariant -/

/-- The invariant linking the reference-counting heap, the event log and
the client configuration; it holds in the initial configuration and is
preserved by every client operation. -/
structure Wf (cfg : Config) : Prop where
  keys_nodup : (keysOf cfg.σ.heap).Nodup
  keys_lt : ∀ sid, cfg.σ.live sid → sid < cfg.σ.nextId
  rc_pos : ∀ sid, cfg.σ.live sid → 0 < cfg.σ.rcOf sid
  rc_eq : ∀ sid, cfg.σ.rcOf sid = refsTo cfg sid
  opens_lt : ∀ mid, Event.openEv mid ∈ cfg.σ.st.events → mid < cfg.σ.st.openCalls
  opens_le_one : ∀ mid, opensOf cfg.σ.st.events mid ≤ 1
  acct : ∀ mid, opensOf cfg.σ.st.events mid
    = closesOf cfg.σ.st.events mid + heapCount cfg.σ mid
  shape : ∀ sid, cfg.σ.live sid →
    (cfg.σ.valueOf sid).pointers.length = cfg.handle.symbols.length ∧
    ∀ i, i < cfg.handle.symbols.length →
      cfg.σ.st.loader.resolve (cfg.σ.valueOf sid)._lib.module (cfg.handle.symbols.getD i "")
        = some ((cfg.σ.valueOf sid).pointers.getD i 0)
  cursor_idx : ∀ (i : Nat) (c : ReloadableSymbol), cfg.cursors[i]? = some (some c) →
    c.symbol_index < cfg.handle.symbols.length

theorem live_of_rcOf_pos (σ : Sys) (sid : Nat) (h : 0 < σ.rcOf sid) : σ.live sid := by
  unfold Sys.rcOf at h
  unfold Sys.live
  cases hc : hfind sid σ.heap with
  | none => rw [hc] at h; simp at h
  | some c => simp

theorem Wf.live_of_refs {cfg : Config} (hI : Wf cfg) (sid : Nat)
    (h : 0 < refsTo cfg sid) : cfg.σ.live sid :=
  live_of_rcOf_pos _ _ (by rw [hI.rc_eq sid]; exact h)

theorem Wf.current_live {cfg : Config} (hI : Wf cfg) :
    cfg.σ.live cfg.handle.inner := by
  apply hI.live_of_refs
  unfold refsTo
  rw [if_pos rfl]
  omega

theorem Wf.cursor_live {cfg : Config} (hI : Wf cfg) (i : Nat) (c : ReloadableSymbol)
    (h : cfg.cursors[i]? = some (some c)) : cfg.σ.live c.raw_lib := by
  apply hI.live_of_refs
  unfold refsTo
  have := optCount_getElem (fun c' => if c'.raw_lib = c.raw_lib then 1 else 0)
    cfg.cursors i c h
  simp at this
  omega

theorem Wf.guard_live {cfg : Config} (hI : Wf cfg) (i : Nat) (g : LoadedSymbol)
    (h : cfg.guards[i]? = some (some g)) : cfg.σ.live g._lib := by
  apply hI.live_of_refs
  unfold refsTo
  have := optCount_getElem (fun g' => if g'._lib = g._lib then 1 else 0)
    cfg.guards i g h
  simp at this
  omega

theorem Wf.heapCount_le_one {cfg : Config} (hI : Wf cfg) (mid : Nat) :
    heapCount cfg.σ mid ≤ 1 := by
  have h1 := hI.acct mid
  have h2 := hI.opens_le_one mid
  omega

theorem Wf.closes_le_one {cfg : Config} (hI : Wf cfg) (mid : Nat) :
    closesOf cfg.σ.st.events mid ≤ 1 := by
  have h1 := hI.acct mid
  have h2 := hI.opens_le_one mid
  omega

theorem Sys.live_of_live_decRef (σ : Sys) (x y : Nat) (hnd : (keysOf σ.heap).Nodup)
    (h : (σ.decRef x).live y) : σ.live y := by
  by_cases hyx : y = x
  · subst hyx
    cases hc : hfind y σ.heap with
    | none => rw [Sys.decRef_of_none σ y hc] at h; exact h
    | some c => simp [Sys.live, hc]
  · exact (Sys.live_decRef_ne σ x y hyx).mp h

theorem Sys.valueOf_decRef_live (σ : Sys) (x y : Nat) (hnd : (keysOf σ.heap).Nodup)
    (h : (σ.decRef x).live y) : (σ.decRef x).valueOf y = σ.valueOf y := by
  by_cases hyx : y = x
  · subst hyx
    cases hc : hfind y σ.heap with
    | none => rw [Sys.decRef_of_none σ y hc]
    | some c =>
      by_cases hrc : c.rc ≤ 1
      · exact absurd h (Sys.not_live_decRef_rem σ y c hnd hc hrc)
      · exact Sys.valueOf_decRef_stay σ y c hnd hc hrc y
  · exact Sys.valueOf_decRef_ne σ x y hyx

theorem Sys.openEv_mem_decRef (σ : Sys) (x mid : Nat)
    (h : Event.openEv mid ∈ (σ.decRef x).st.events) :
    Event.openEv mid ∈ σ.st.events := by
  unfold Sys.decRef at h
  cases hc : hfind x σ.heap with
  | none => rw [hc] at h; exact h
  | some c =>
    rw [hc] at h
    by_cases hrc : c.rc ≤ 1
    · simp only [hrc, ite_true, Library.drop] at h
      rcases List.mem_append.mp h with h | h
      · exact h
      · simp at h
    · simp only [hrc, ite_false] at h
      exact h

theorem Sys.opensOf_decRef (σ : Sys) (x mid : Nat) :
    opensOf (σ.decRef x).st.events mid = opensOf σ.st.events mid := by
  unfold Sys.decRef
  cases hfind x σ.heap with
  | none => rfl
  | some c =>
    by_cases hrc : c.rc ≤ 1
    · simp only [hrc, ite_true, Library.drop]
      rw [opensOf_append, opensOf_closeEv]
      omega
    · simp only [hrc, ite_false]

theorem Sys.acct_decRef (σ : Sys) (x : Nat)
    (hacct : ∀ mid, opensOf σ.st.events mid
      = closesOf σ.st.events mid + heapCount σ mid) :
    ∀ mid, opensOf (σ.decRef x).st.events mid
      = closesOf (σ.decRef x).st.events mid + heapCount (σ.decRef x) mid := by
  intro mid
  rw [Sys.opensOf_decRef]
  cases hc : hfind x σ.heap with
  | none => rw [Sys.decRef_of_none σ x hc]; exact hacct mid
  | some c =>
    by_cases hrc : c.rc ≤ 1
    · have hev := Sys.events_decRef_rem σ x c hc hrc
      have hhc := Sys.heapCount_decRef_rem σ x c hc hrc mid
      rw [hev, closesOf_append, closesOf_closeEv]
      have := hacct mid
      by_cases hm : c.val._lib.module = mid <;> simp [hm] at hhc ⊢ <;> omega
    · have hev := Sys.events_decRef_stay σ x c hc hrc
      have hhc := Sys.heapCount_decRef_stay σ x c hc hrc mid
      rw [hev, hhc]
      exact hacct mid

theorem Sys.rc_pos_decRef (σ : Sys) (x : Nat) (hnd : (keysOf σ.heap).Nodup)
    (hpos : ∀ sid, σ.live sid → 0 < σ.rcOf sid) :
    ∀ sid, (σ.decRef x).live sid → 0 < (σ.decRef x).rcOf sid := by
  intro sid hl
  rw [Sys.rcOf_decRef σ x sid hnd]
  by_cases hsx : sid = x
  · subst hsx
    rw [if_pos rfl]
    cases hc : hfind sid σ.heap with
    | none => rw [Sys.decRef_of_none σ sid hc] at hl; unfold Sys.live at hl; rw [hc] at hl; simp at hl
    | some c =>
      by_cases hrc : c.rc ≤ 1
      · exact absurd hl (Sys.not_live_decRef_rem σ sid c hnd hc hrc)
      · have : σ.rcOf sid = c.rc := by unfold Sys.rcOf; rw [hc]
        omega
  · rw [if_neg hsx]
    exact hpos sid ((Sys.live_decRef_ne σ x sid hsx).mp hl)

/-! ### The invariant holds initially -/

theorem wf_init (L : Loader) (name : CString) (symbols : List CString) (cfg0 : Config)
    (h : initConfig L name symbols = some cfg0) : Wf cfg0 := by
  unfold initConfig ReloadableLibrary.new Sys.empty at h
  dsimp only [Library.load] at h
  by_cases ho : L.openOk 0 name
  case neg => simp [ho] at h
  case pos =>
    rw [if_pos (by exact ho)] at h
    dsimp only [Inner.new] at h
    cases hr : resolvePointers L ⟨0⟩ symbols with
    | error p => rw [hr] at h; simp at h
    | ok ptrs =>
      rw [hr] at h
      dsimp only [Sys.alloc] at h
      rw [Option.some_inj] at h
      subst h
      have hlive : ∀ sid, Sys.live ⟨⟨L, 1, [Event.openEv 0]⟩, [⟨0, ⟨⟨0⟩, ptrs⟩, 1⟩], 1⟩ sid → sid = 0 := by
        intro sid hs
        by_cases h0 : sid = 0
        · exact h0
        · exfalso
          unfold Sys.live hfind at hs
          rw [if_neg (by simpa using fun hc => h0 hc.symm)] at hs
          simp [hfind] at hs
      constructor
      · simp [keysOf]
      · intro sid hs
        rw [hlive sid hs]
        dsimp only
        omega
      · intro sid hs
        rw [hlive sid hs]
        simp [Sys.rcOf, hfind]
      · intro sid
        by_cases h0 : sid = 0
        · subst h0
          simp [Sys.rcOf, hfind, refsTo, optCount]
        · have hne : ¬ (0 : Nat) = sid := fun hc => h0 hc.symm
          simp [Sys.rcOf, hfind, refsTo, optCount, hne]
      · intro mid hm
        dsimp only at hm
        simp only [List.nil_append, List.mem_singleton] at hm
        dsimp only
        cases hm
        omega
      · intro mid
        dsimp only
        simp only [List.nil_append]
        rw [opensOf_openEv]
        by_cases h0 : (0 : Nat) = mid <;> simp [h0]
      · intro mid
        dsimp only
        simp only [List.nil_append]
        rw [opensOf_openEv, closesOf_openEv]
        simp only [heapCount, List.countP_cons, List.countP_nil]
        by_cases h0 : (0 : Nat) = mid
        · subst h0
          simp
        · simp [h0]
      · intro sid hs
        rw [hlive sid hs]
        dsimp only
        refine ⟨?_, ?_⟩
        · simpa [Sys.valueOf, hfind] using resolvePointers_ok_length L ⟨0⟩ symbols ptrs hr
        · intro i hi
          simpa [Sys.valueOf, hfind] using resolvePointers_ok_getD L ⟨0⟩ symbols ptrs hr i hi
      · intro i c hc
        simp at hc

theorem getElem_set_none_inv {α : Type} (l : List (Option α)) (i j : Nat) (a : α)
    (h : (l.set i none)[j]? = some (some a)) : l[j]? = some (some a) := by
  by_cases hij : i = j
  · subst hij
    rw [List.getElem?_set] at h
    by_cases hlen : i < l.length
    · simp [hlen] at h
    · simp [hlen] at h
  · rwa [List.getElem?_set_ne hij] at h

theorem getElem_set_some_inv {α : Type} (l : List (Option α)) (i j : Nat) (b a : α)
    (h : (l.set i (some b))[j]? = some (some a)) : a = b ∨ l[j]? = some (some a) := by
  by_cases hij : i = j
  · subst hij
    rw [List.getElem?_set] at h
    by_cases hlen : i < l.length
    · simp [hlen] at h
      exact Or.inl h.symm
    · simp [hlen] at h
  · rw [List.getElem?_set_ne hij] at h
    exact Or.inr h

/-! ### The invariant is preserved by every client operation -/

theorem wf_dropGuard (cfg : Config) (hI : Wf cfg) (i : Nat) :
    Wf (cfg.step (Cmd.dropGuard i)) := by
  unfold Config.step
  dsimp only
  cases hg : cfg.guards[i]? with
  | none => exact hI
  | some og =>
    cases og with
    | none => exact hI
    | some g =>
      dsimp only
      constructor
      · exact hI.keys_nodup.sublist (Sys.keysOf_decRef_sublist cfg.σ g._lib)
      · intro sid hs
        dsimp only at hs ⊢
        rw [Sys.decRef_nextId]
        exact hI.keys_lt sid (Sys.live_of_live_decRef cfg.σ g._lib sid hI.keys_nodup hs)
      · intro sid hs
        dsimp only at hs ⊢
        exact Sys.rc_pos_decRef cfg.σ g._lib hI.keys_nodup hI.rc_pos sid hs
      · intro sid
        dsimp only
        have hset := optCount_set_none
          (fun g' : LoadedSymbol => if g'._lib = sid then 1 else 0) cfg.guards i g hg
        have hrc := Sys.rcOf_decRef cfg.σ g._lib sid hI.keys_nodup
        have hre := hI.rc_eq sid
        unfold refsTo at hre ⊢
        dsimp only
        by_cases hsx : sid = g._lib
        · subst hsx
          rw [if_pos rfl] at hrc
          simp at hset
          omega
        · rw [if_neg hsx] at hrc
          have hzero : (fun g' : LoadedSymbol => if g'._lib = sid then 1 else 0) g = 0 := by
            simp only
            rw [if_neg (fun hc => hsx hc.symm)]
          rw [hzero] at hset
          omega
      · intro mid hm
        dsimp only at hm ⊢
        rw [Sys.decRef_openCalls]
        exact hI.opens_lt mid (Sys.openEv_mem_decRef cfg.σ g._lib mid hm)
      · intro mid
        dsimp only
        rw [Sys.opensOf_decRef]
        exact hI.opens_le_one mid
      · intro mid
        dsimp only
        exact Sys.acct_decRef cfg.σ g._lib hI.acct mid
      · intro sid hs
        dsimp only at hs ⊢
        rw [Sys.valueOf_decRef_live cfg.σ g._lib sid hI.keys_nodup hs,
          Sys.decRef_loader]
        exact hI.shape sid (Sys.live_of_live_decRef cfg.σ g._lib sid hI.keys_nodup hs)
      · intro j c hc
        dsimp only at hc ⊢
        exact hI.cursor_idx j c hc

theorem wf_dropCursor (cfg : Config) (hI : Wf cfg) (i : Nat) :
    Wf (cfg.step (Cmd.dropCursor i)) := by
  unfold Config.step
  dsimp only
  cases hg : cfg.cursors[i]? with
  | none => exact hI
  | some oc =>
    cases oc with
    | none => exact hI
    | some c =>
      dsimp only
      constructor
      · exact hI.keys_nodup.sublist (Sys.keysOf_decRef_sublist cfg.σ c.raw_lib)
      · intro sid hs
        dsimp only at hs ⊢
        rw [Sys.decRef_nextId]
        exact hI.keys_lt sid (Sys.live_of_live_decRef cfg.σ c.raw_lib sid hI.keys_nodup hs)
      · intro sid hs
        dsimp only at hs ⊢
        exact Sys.rc_pos_decRef cfg.σ c.raw_lib hI.keys_nodup hI.rc_pos sid hs
      · intro sid
        dsimp only
        have hset := optCount_set_none
          (fun c' : ReloadableSymbol => if c'.raw_lib = sid then 1 else 0) cfg.cursors i c hg
        have hrc := Sys.rcOf_decRef cfg.σ c.raw_lib sid hI.keys_nodup
        have hre := hI.rc_eq sid
        unfold refsTo at hre ⊢
        dsimp only
        by_cases hsx : sid = c.raw_lib
        · subst hsx
          rw [if_pos rfl] at hrc
          simp at hset
          omega
        · rw [if_neg hsx] at hrc
          have hzero : (fun c' : ReloadableSymbol => if c'.raw_lib = sid then 1 else 0) c = 0 := by
            simp only
            rw [if_neg (fun hc => hsx hc.symm)]
          rw [hzero] at hset
          omega
      · intro mid hm
        dsimp only at hm ⊢
        rw [Sys.decRef_openCalls]
        exact hI.opens_lt mid (Sys.openEv_mem_decRef cfg.σ c.raw_lib mid hm)
      · intro mid
        dsimp only
        rw [Sys.opensOf_decRef]
        exact hI.opens_le_one mid
      · intro mid
        dsimp only
        exact Sys.acct_decRef cfg.σ c.raw_lib hI.acct mid
      · intro sid hs
        dsimp only at hs ⊢
        rw [Sys.valueOf_decRef_live cfg.σ c.raw_lib sid hI.keys_nodup hs,
          Sys.decRef_loader]
        exact hI.shape sid (Sys.live_of_live_decRef cfg.σ c.raw_lib sid hI.keys_nodup hs)
      · intro j c' hc
        dsimp only at hc ⊢
        exact hI.cursor_idx j c' (getElem_set_none_inv cfg.cursors i j c' hc)

theorem optCount_some_single (f : α → Nat) (a : α) : optCount f [some a] = f a := by
  simp [optCount]

theorem optCount_none_single (f : α → Nat) : optCount f [(none : Option α)] = 0 := rfl

theorem getElem_append_inv {α : Type} (l : List (Option α)) (x : Option α) (j : Nat) (a : α)
    (h : (l ++ [x])[j]? = some (some a)) : l[j]? = some (some a) ∨ x = some a := by
  rw [List.getElem?_append] at h
  by_cases hj : j < l.length
  · rw [if_pos hj] at h
    exact Or.inl h
  · rw [if_neg hj] at h
    cases hd : j - l.length with
    | zero =>
      rw [hd] at h
      simp at h
      exact Or.inr (by rw [h])
    | succ k =>
      rw [hd] at h
      simp at h

theorem wf_mkCursor (cfg : Config) (hI : Wf cfg) (name : CString) :
    Wf (cfg.step (Cmd.mkCursor name)) := by
  unfold Config.step
  dsimp only
  unfold ReloadableLibrary.get_symbol
  cases hf : cfg.handle.symbols.findIdx? (fun x => x == name) with
  | none =>
    dsimp only
    constructor
    · exact hI.keys_nodup
    · exact hI.keys_lt
    · exact hI.rc_pos
    · intro sid
      unfold refsTo
      dsimp only
      rw [optCount_append, optCount_none_single]
      have := hI.rc_eq sid
      unfold refsTo at this
      omega
    · exact hI.opens_lt
    · exact hI.opens_le_one
    · exact hI.acct
    · exact hI.shape
    · intro j c hc
      dsimp only at hc
      rcases getElem_append_inv cfg.cursors none j c hc with hc | hc
      · exact hI.cursor_idx j c hc
      · cases hc
  | some idx =>
    dsimp only
    have hlive := hI.current_live
    constructor
    · rw [Sys.keysOf_incRef]
      exact hI.keys_nodup
    · intro sid hs
      dsimp only at hs
      rw [Sys.incRef_nextId]
      exact hI.keys_lt sid ((Sys.live_incRef cfg.σ cfg.handle.inner sid).mp hs)
    · intro sid hs
      dsimp only at hs ⊢
      rw [Sys.rcOf_incRef cfg.σ cfg.handle.inner sid hlive]
      by_cases hsx : sid = cfg.handle.inner
      · rw [if_pos hsx]
        omega
      · rw [if_neg hsx]
        exact hI.rc_pos sid ((Sys.live_incRef cfg.σ cfg.handle.inner sid).mp hs)
    · intro sid
      dsimp only
      have hre := hI.rc_eq sid
      unfold refsTo at hre ⊢
      dsimp only
      rw [Sys.rcOf_incRef cfg.σ cfg.handle.inner sid hlive, optCount_append]
      have hsingle : optCount (fun c' : ReloadableSymbol => if c'.raw_lib = sid then 1 else 0)
          [some (⟨idx, cfg.handle.inner⟩ : ReloadableSymbol)]
          = if cfg.handle.inner = sid then 1 else 0 := by
        simp [optCount]
      rw [hsingle]
      by_cases hsx : sid = cfg.handle.inner
      · rw [if_pos hsx]
        rw [if_pos hsx.symm] at hre ⊢
        omega
      · rw [if_neg hsx]
        rw [if_neg (fun hc => hsx hc.symm)] at hre ⊢
        omega
    · intro mid hm
      dsimp only at hm ⊢
      exact hI.opens_lt mid hm
    · exact hI.opens_le_one
    · intro mid
      dsimp only
      rw [Sys.heapCount_incRef]
      exact hI.acct mid
    · intro sid hs
      dsimp only at hs ⊢
      rw [Sys.valueOf_incRef]
      exact hI.shape sid ((Sys.live_incRef cfg.σ cfg.handle.inner sid).mp hs)
    · intro j c hc
      dsimp only at hc ⊢
      rcases getElem_append_inv cfg.cursors (some ⟨idx, cfg.handle.inner⟩) j c hc with hc | hc
      · exact hI.cursor_idx j c hc
      · cases hc
        exact (findIdx_first cfg.handle.symbols name idx hf).1

theorem Sys.rcOf_eq_of_hfind (σ : Sys) (x : Nat) (c : HCell)
    (hf : hfind x σ.heap = some c) : σ.rcOf x = c.rc := by
  unfold Sys.rcOf
  rw [hf]

theorem Sys.valueOf_eq_of_hfind (σ : Sys) (x : Nat) (c : HCell)
    (hf : hfind x σ.heap = some c) : σ.valueOf x = c.val := by
  unfold Sys.valueOf
  rw [hf]

/-! ### Net effect of `get_loaded` -/

theorem get_loaded_spec_eq (c : ReloadableSymbol) (h : ReloadableLibrary) (σ : Sys)
    (heq : c.raw_lib = h.inner) (hnd : (keysOf σ.heap).Nodup) (hlive : σ.live h.inner) :
    ∃ σ', ReloadableSymbol.get_loaded c h σ =
        (⟨h.inner, (σ.valueOf h.inner).pointers.getD c.symbol_index 0⟩, c, σ') ∧
      σ'.st = σ.st ∧ σ'.nextId = σ.nextId ∧
      keysOf σ'.heap = keysOf σ.heap ∧
      (∀ mid, heapCount σ' mid = heapCount σ mid) ∧
      (∀ y, σ'.valueOf y = σ.valueOf y) ∧
      (∀ y, (σ'.live y ↔ σ.live y)) ∧
      (∀ y, σ'.rcOf y = σ.rcOf y + (if y = h.inner then 1 else 0)) := by
  obtain ⟨idx, raw⟩ := c
  dsimp only at heq
  subst heq
  have hl1 : (Sys.incRef h.inner σ).live h.inner :=
    (Sys.live_incRef σ h.inner h.inner).mpr hlive
  have hnd2 : (keysOf (Sys.incRef h.inner (Sys.incRef h.inner σ)).heap).Nodup := by
    rw [Sys.keysOf_incRef, Sys.keysOf_incRef]
    exact hnd
  have hl2 : (Sys.incRef h.inner (Sys.incRef h.inner σ)).live h.inner :=
    (Sys.live_incRef _ h.inner h.inner).mpr hl1
  have hrc2 : ∀ y, (Sys.incRef h.inner (Sys.incRef h.inner σ)).rcOf y
      = σ.rcOf y + (if y = h.inner then 2 else 0) := by
    intro y
    rw [Sys.rcOf_incRef _ h.inner y hl1, Sys.rcOf_incRef σ h.inner y hlive]
    split_ifs <;> omega
  obtain ⟨cell, hcell⟩ := Option.isSome_iff_exists.mp hl2
  have hcrc : cell.rc = σ.rcOf h.inner + 2 := by
    have hx := hrc2 h.inner
    rw [if_pos rfl, Sys.rcOf_eq_of_hfind _ h.inner cell hcell] at hx
    exact hx
  have hrcge : ¬ cell.rc ≤ 1 := by omega
  have hval : ∀ y, (Sys.decRef h.inner (Sys.incRef h.inner (Sys.incRef h.inner σ))).valueOf y
      = σ.valueOf y := by
    intro y
    rw [Sys.valueOf_decRef_stay _ h.inner cell hnd2 hcell hrcge y,
      Sys.valueOf_incRef, Sys.valueOf_incRef]
  unfold ReloadableSymbol.get_loaded
  dsimp only
  rw [if_pos rfl]
  refine ⟨Sys.decRef h.inner (Sys.incRef h.inner (Sys.incRef h.inner σ)),
    ?_, ?_, ?_, ?_, ?_, ?_, ?_, ?_⟩
  · rw [hval h.inner]
  · rw [Sys.events_decRef_stay _ h.inner cell hcell hrcge, Sys.incRef_st, Sys.incRef_st]
  · rw [Sys.decRef_nextId, Sys.incRef_nextId, Sys.incRef_nextId]
  · rw [Sys.decRef_stay _ h.inner cell hcell hrcge]
    rw [show keysOf ({ Sys.incRef h.inner (Sys.incRef h.inner σ) with
        heap := decHeap h.inner (Sys.incRef h.inner (Sys.incRef h.inner σ)).heap } : Sys).heap
      = keysOf (decHeap h.inner (Sys.incRef h.inner (Sys.incRef h.inner σ)).heap) from rfl]
    rw [keysOf_decHeap_stay h.inner _ cell hcell hrcge, Sys.keysOf_incRef, Sys.keysOf_incRef]
  · intro mid
    rw [Sys.heapCount_decRef_stay _ h.inner cell hcell hrcge mid,
      Sys.heapCount_incRef, Sys.heapCount_incRef]
  · exact hval
  · intro y
    rw [Sys.live_decRef_stay _ h.inner cell hnd2 hcell hrcge y,
      Sys.live_incRef, Sys.live_incRef]
  · intro y
    rw [Sys.rcOf_decRef _ h.inner y hnd2, hrc2 h.inner, hrc2 y]
    split_ifs with h1 h2 <;> simp_all <;> omega

theorem get_loaded_spec_ne (c : ReloadableSymbol) (h : ReloadableLibrary) (σ : Sys)
    (hne : ¬ c.raw_lib = h.inner) (hnd : (keysOf σ.heap).Nodup)
    (hlc : σ.live c.raw_lib) (hli : σ.live h.inner) (hpos : 0 < σ.rcOf c.raw_lib) :
    ∃ σ', ReloadableSymbol.get_loaded c h σ =
        (⟨h.inner, (σ.valueOf h.inner).pointers.getD c.symbol_index 0⟩,
          { c with raw_lib := h.inner }, σ') ∧
      σ'.nextId = σ.nextId ∧
      σ'.st.loader = σ.st.loader ∧
      σ'.st.openCalls = σ.st.openCalls ∧
      σ'.rcOf h.inner = σ.rcOf h.inner + 2 ∧
      σ'.rcOf c.raw_lib = σ.rcOf c.raw_lib - 1 ∧
      (∀ y, y ≠ h.inner → y ≠ c.raw_lib → σ'.rcOf y = σ.rcOf y) ∧
      (∀ y, y ≠ c.raw_lib → σ'.valueOf y = σ.valueOf y) ∧
      (∀ y, y ≠ c.raw_lib → (σ'.live y ↔ σ.live y)) ∧
      (2 ≤ σ.rcOf c.raw_lib → σ'.st = σ.st ∧ keysOf σ'.heap = keysOf σ.heap ∧
        (∀ mid, heapCount σ' mid = heapCount σ mid) ∧
        (∀ y, σ'.valueOf y = σ.valueOf y) ∧ (∀ y, (σ'.live y ↔ σ.live y))) ∧
      (σ.rcOf c.raw_lib ≤ 1 →
        σ'.st.events = σ.st.events
          ++ [Event.closeEv (σ.valueOf c.raw_lib)._lib.module] ∧
        σ'.st.loader = σ.st.loader ∧
        ¬ σ'.live c.raw_lib ∧
        (∀ mid, heapCount σ' mid
          + (if (σ.valueOf c.raw_lib)._lib.module = mid then 1 else 0) = heapCount σ mid)) ∧
      List.Sublist (keysOf σ'.heap) (keysOf σ.heap) := by
  have hl1c : (Sys.incRef c.raw_lib σ).live c.raw_lib :=
    (Sys.live_incRef σ c.raw_lib c.raw_lib).mpr hlc
  have hl1i : (Sys.incRef c.raw_lib σ).live h.inner :=
    (Sys.live_incRef σ c.raw_lib h.inner).mpr hli
  have hl2i : (Sys.incRef h.inner (Sys.incRef c.raw_lib σ)).live h.inner :=
    (Sys.live_incRef _ h.inner h.inner).mpr hl1i
  have hnd3 : (keysOf (Sys.incRef h.inner (Sys.incRef h.inner
      (Sys.incRef c.raw_lib σ))).heap).Nodup := by
    rw [Sys.keysOf_incRef, Sys.keysOf_incRef, Sys.keysOf_incRef]
    exact hnd
  have hrc3 : ∀ y, (Sys.incRef h.inner (Sys.incRef h.inner (Sys.incRef c.raw_lib σ))).rcOf y
      = σ.rcOf y + (if y = c.raw_lib then 1 else 0) + (if y = h.inner then 2 else 0) := by
    intro y
    rw [Sys.rcOf_incRef _ h.inner y hl2i,
      Sys.rcOf_incRef _ h.inner y hl1i,
      Sys.rcOf_incRef σ c.raw_lib y hlc]
    split_ifs <;> omega
  have hval3 : ∀ y, (Sys.incRef h.inner (Sys.incRef h.inner
      (Sys.incRef c.raw_lib σ))).valueOf y = σ.valueOf y := by
    intro y
    rw [Sys.valueOf_incRef, Sys.valueOf_incRef, Sys.valueOf_incRef]
  have hlive3 : ∀ y, ((Sys.incRef h.inner (Sys.incRef h.inner
      (Sys.incRef c.raw_lib σ))).live y ↔ σ.live y) := by
    intro y
    rw [Sys.live_incRef, Sys.live_incRef, Sys.live_incRef]
  obtain ⟨cell3, hcell3⟩ := Option.isSome_iff_exists.mp ((hlive3 c.raw_lib).mpr hlc)
  have hcrc3 : cell3.rc = σ.rcOf c.raw_lib + 1 := by
    have hx := hrc3 c.raw_lib
    rw [if_pos rfl, if_neg hne,
      Sys.rcOf_eq_of_hfind _ c.raw_lib cell3 hcell3] at hx
    omega
  have hrcge3 : ¬ cell3.rc ≤ 1 := by omega
  have hnd4 : (keysOf (Sys.decRef c.raw_lib (Sys.incRef h.inner (Sys.incRef h.inner
      (Sys.incRef c.raw_lib σ)))).heap).Nodup := by
    rw [Sys.decRef_stay _ c.raw_lib cell3 hcell3 hrcge3]
    rw [show keysOf ({ (Sys.incRef h.inner (Sys.incRef h.inner (Sys.incRef c.raw_lib σ))) with
        heap := decHeap c.raw_lib (Sys.incRef h.inner (Sys.incRef h.inner
          (Sys.incRef c.raw_lib σ))).heap } : Sys).heap
      = keysOf (decHeap c.raw_lib (Sys.incRef h.inner (Sys.incRef h.inner
          (Sys.incRef c.raw_lib σ))).heap) from rfl]
    rw [keysOf_decHeap_stay c.raw_lib _ cell3 hcell3 hrcge3]
    exact hnd3
  have hval4 : ∀ y, (Sys.decRef c.raw_lib (Sys.incRef h.inner (Sys.incRef h.inner
      (Sys.incRef c.raw_lib σ)))).valueOf y = σ.valueOf y := by
    intro y
    rw [Sys.valueOf_decRef_stay _ c.raw_lib cell3 hnd3 hcell3 hrcge3 y, hval3 y]
  have hlive4 : ∀ y, ((Sys.decRef c.raw_lib (Sys.incRef h.inner (Sys.incRef h.inner
      (Sys.incRef c.raw_lib σ)))).live y ↔ σ.live y) := by
    intro y
    rw [Sys.live_decRef_stay _ c.raw_lib cell3 hnd3 hcell3 hrcge3 y, hlive3 y]
  have hrc4 : ∀ y, (Sys.decRef c.raw_lib (Sys.incRef h.inner (Sys.incRef h.inner
      (Sys.incRef c.raw_lib σ)))).rcOf y
      = σ.rcOf y + (if y = h.inner then 2 else 0) := by
    intro y
    rw [Sys.rcOf_decRef _ c.raw_lib y hnd3]
    by_cases hyc : y = c.raw_lib
    · subst hyc
      rw [if_pos rfl, hrc3 c.raw_lib, if_pos rfl, if_neg hne]
      omega
    · rw [if_neg hyc, hrc3 y, if_neg hyc]
      split_ifs <;> omega
  have hst4 : (Sys.decRef c.raw_lib (Sys.incRef h.inner (Sys.incRef h.inner
      (Sys.incRef c.raw_lib σ)))).st = σ.st := by
    rw [Sys.events_decRef_stay _ c.raw_lib cell3 hcell3 hrcge3,
      Sys.incRef_st, Sys.incRef_st, Sys.incRef_st]
  have hkeys4 : keysOf (Sys.decRef c.raw_lib (Sys.incRef h.inner (Sys.incRef h.inner
      (Sys.incRef c.raw_lib σ)))).heap = keysOf σ.heap := by
    rw [Sys.decRef_stay _ c.raw_lib cell3 hcell3 hrcge3]
    rw [show keysOf ({ (Sys.incRef h.inner (Sys.incRef h.inner (Sys.incRef c.raw_lib σ))) with
        heap := decHeap c.raw_lib (Sys.incRef h.inner (Sys.incRef h.inner
          (Sys.incRef c.raw_lib σ))).heap } : Sys).heap
      = keysOf (decHeap c.raw_lib (Sys.incRef h.inner (Sys.incRef h.inner
          (Sys.incRef c.raw_lib σ))).heap) from rfl]
    rw [keysOf_decHeap_stay c.raw_lib _ cell3 hcell3 hrcge3,
      Sys.keysOf_incRef, Sys.keysOf_incRef, Sys.keysOf_incRef]
  have hcount4 : ∀ mid, heapCount (Sys.decRef c.raw_lib (Sys.incRef h.inner (Sys.incRef h.inner
      (Sys.incRef c.raw_lib σ)))) mid = heapCount σ mid := by
    intro mid
    rw [Sys.heapCount_decRef_stay _ c.raw_lib cell3 hcell3 hrcge3 mid,
      Sys.heapCount_incRef, Sys.heapCount_incRef, Sys.heapCount_incRef]
  obtain ⟨cell4, hcell4⟩ := Option.isSome_iff_exists.mp ((hlive4 c.raw_lib).mpr hlc)
  have hcrc4 : cell4.rc = σ.rcOf c.raw_lib := by
    have hx := hrc4 c.raw_lib
    rw [if_neg hne, Sys.rcOf_eq_of_hfind _ c.raw_lib cell4 hcell4] at hx
    omega
  have hcval4 : cell4.val = σ.valueOf c.raw_lib := by
    have hx := hval4 c.raw_lib
    rw [Sys.valueOf_eq_of_hfind _ c.raw_lib cell4 hcell4] at hx
    exact hx
  unfold ReloadableSymbol.get_loaded
  rw [if_neg hne]
  dsimp only
  refine ⟨Sys.decRef c.raw_lib (Sys.decRef c.raw_lib (Sys.incRef h.inner (Sys.incRef h.inner
    (Sys.incRef c.raw_lib σ)))), ?_, ?_, ?_, ?_, ?_, ?_, ?_, ?_, ?_, ?_, ?_, ?_⟩
  · rw [Sys.valueOf_decRef_ne _ c.raw_lib h.inner (fun hc => hne hc.symm), hval4 h.inner]
  · rw [Sys.decRef_nextId, Sys.decRef_nextId, Sys.incRef_nextId, Sys.incRef_nextId,
      Sys.incRef_nextId]
  · rw [Sys.decRef_loader, Sys.decRef_loader, Sys.incRef_st, Sys.incRef_st, Sys.incRef_st]
  · rw [Sys.decRef_openCalls, Sys.decRef_openCalls, Sys.incRef_st, Sys.incRef_st,
      Sys.incRef_st]
  · rw [Sys.rcOf_decRef _ c.raw_lib h.inner hnd4,
      if_neg (fun hc : h.inner = c.raw_lib => hne hc.symm), hrc4 h.inner, if_pos rfl]
  · rw [Sys.rcOf_decRef _ c.raw_lib c.raw_lib hnd4, if_pos rfl, hrc4 c.raw_lib,
      if_neg hne]
    omega
  · intro y hyi hyc
    rw [Sys.rcOf_decRef _ c.raw_lib y hnd4, if_neg hyc, hrc4 y, if_neg hyi]
    omega
  · intro y hyc
    rw [Sys.valueOf_decRef_ne _ c.raw_lib y hyc, hval4 y]
  · intro y hyc
    rw [Sys.live_decRef_ne _ c.raw_lib y hyc, hlive4 y]
  · intro hge
    have hrcge4 : ¬ cell4.rc ≤ 1 := by omega
    refine ⟨?_, ?_, ?_, ?_, ?_⟩
    · rw [Sys.events_decRef_stay _ c.raw_lib cell4 hcell4 hrcge4, hst4]
    · rw [Sys.decRef_stay _ c.raw_lib cell4 hcell4 hrcge4]
      rw [show keysOf ({ (Sys.decRef c.raw_lib (Sys.incRef h.inner (Sys.incRef h.inner
          (Sys.incRef c.raw_lib σ)))) with
          heap := decHeap c.raw_lib (Sys.decRef c.raw_lib (Sys.incRef h.inner
            (Sys.incRef h.inner (Sys.incRef c.raw_lib σ)))).heap } : Sys).heap
        = keysOf (decHeap c.raw_lib (Sys.decRef c.raw_lib (Sys.incRef h.inner
            (Sys.incRef h.inner (Sys.incRef c.raw_lib σ)))).heap) from rfl]
      rw [keysOf_decHeap_stay c.raw_lib _ cell4 hcell4 hrcge4, hkeys4]
    · intro mid
      rw [Sys.heapCount_decRef_stay _ c.raw_lib cell4 hcell4 hrcge4 mid, hcount4 mid]
    · intro y
      rw [Sys.valueOf_decRef_stay _ c.raw_lib cell4 hnd4 hcell4 hrcge4 y, hval4 y]
    · intro y
      rw [Sys.live_decRef_stay _ c.raw_lib cell4 hnd4 hcell4 hrcge4 y, hlive4 y]
  · intro hle
    have hrcle4 : cell4.rc ≤ 1 := by omega
    refine ⟨?_, ?_, ?_, ?_⟩
    · rw [Sys.events_decRef_rem _ c.raw_lib cell4 hcell4 hrcle4, hcval4, hst4]
    · rw [Sys.decRef_loader, Sys.decRef_loader, Sys.incRef_st, Sys.incRef_st, Sys.incRef_st]
    · exact Sys.not_live_decRef_rem _ c.raw_lib cell4 hnd4 hcell4 hrcle4
    · intro mid
      have hx := Sys.heapCount_decRef_rem _ c.raw_lib cell4 hcell4 hrcle4 mid
      rw [hcount4 mid, hcval4] at hx
      exact hx
  · have h5 := Sys.keysOf_decRef_sublist (Sys.decRef c.raw_lib (Sys.incRef h.inner
      (Sys.incRef h.inner (Sys.incRef c.raw_lib σ)))) c.raw_lib
    rw [hkeys4] at h5
    exact h5

theorem wf_pin (cfg : Config) (hI : Wf cfg) (i : Nat) :
    Wf (cfg.step (Cmd.pin i)) := by
  unfold Config.step
  dsimp only
  cases hc : cfg.cursors[i]? with
  | none => exact hI
  | some oc =>
    cases oc with
    | none => exact hI
    | some c =>
      have hlc := hI.cursor_live i c hc
      have hli := hI.current_live
      by_cases heq : c.raw_lib = cfg.handle.inner
      · obtain ⟨σ', hgl, hst, hnext, hkeys, hcount, hval, hlive, hrc⟩ :=
          get_loaded_spec_eq c cfg.handle cfg.σ heq hI.keys_nodup hli
        dsimp only
        rw [hgl]
        dsimp only
        constructor
        · rw [hkeys]
          exact hI.keys_nodup
        · intro sid hs
          dsimp only at hs ⊢
          rw [hnext]
          exact hI.keys_lt sid ((hlive sid).mp hs)
        · intro sid hs
          dsimp only at hs ⊢
          rw [hrc sid]
          have := hI.rc_pos sid ((hlive sid).mp hs)
          omega
        · intro sid
          dsimp only
          have hre := hI.rc_eq sid
          unfold refsTo at hre ⊢
          dsimp only
          rw [hrc sid]
          have hset := optCount_set_some
            (fun c' : ReloadableSymbol => if c'.raw_lib = sid then 1 else 0)
            cfg.cursors i c c hc
          have hsingle : optCount (fun g' : LoadedSymbol => if g'._lib = sid then 1 else 0)
              [some (⟨cfg.handle.inner,
                (cfg.σ.valueOf cfg.handle.inner).pointers.getD c.symbol_index 0⟩
                  : LoadedSymbol)]
              = if cfg.handle.inner = sid then 1 else 0 := by
            simp [optCount]
          rw [optCount_append, hsingle]
          by_cases hsx : sid = cfg.handle.inner
          · rw [if_pos hsx]
            rw [if_pos hsx.symm] at hre ⊢
            omega
          · rw [if_neg hsx]
            rw [if_neg (fun hx => hsx hx.symm)] at hre ⊢
            omega
        · intro mid hm
          dsimp only at hm ⊢
          rw [hst] at hm ⊢
          exact hI.opens_lt mid hm
        · intro mid
          dsimp only
          rw [hst]
          exact hI.opens_le_one mid
        · intro mid
          dsimp only
          rw [hst, hcount mid]
          exact hI.acct mid
        · intro sid hs
          dsimp only at hs ⊢
          rw [hval sid, hst]
          exact hI.shape sid ((hlive sid).mp hs)
        · intro j c' hc'
          dsimp only at hc' ⊢
          rcases getElem_set_some_inv cfg.cursors i j c c' hc' with hcc | hcc
          · rw [hcc]
            exact hI.cursor_idx i c hc
          · exact hI.cursor_idx j c' hcc
      · have hpos := hI.rc_pos c.raw_lib hlc
        obtain ⟨σ', hgl, hnext, hloader, hopen, hrci, hrcc, hrco, hvalo, hliveo,
          hstay, hrem, hsub⟩ :=
          get_loaded_spec_ne c cfg.handle cfg.σ heq hI.keys_nodup hlc hli hpos
        dsimp only
        rw [hgl]
        dsimp only
        constructor
        · exact hI.keys_nodup.sublist hsub
        · intro sid hs
          dsimp only at hs ⊢
          rw [hnext]
          by_cases hsc : sid = c.raw_lib
          · subst hsc
            exact hI.keys_lt c.raw_lib hlc
          · exact hI.keys_lt sid ((hliveo sid hsc).mp hs)
        · intro sid hs
          dsimp only at hs ⊢
          by_cases hsi : sid = cfg.handle.inner
          · subst hsi
            rw [hrci]
            omega
          · by_cases hsc : sid = c.raw_lib
            · subst hsc
              rw [hrcc]
              by_cases hge : 2 ≤ cfg.σ.rcOf c.raw_lib
              · omega
              · obtain ⟨_, _, hnl, _⟩ := hrem (by omega)
                exact absurd hs hnl
            · rw [hrco sid hsi hsc]
              exact hI.rc_pos sid ((hliveo sid hsc).mp hs)
        · intro sid
          dsimp only
          have hre := hI.rc_eq sid
          unfold refsTo at hre ⊢
          dsimp only
          have hset := optCount_set_some
            (fun c' : ReloadableSymbol => if c'.raw_lib = sid then 1 else 0)
            cfg.cursors i c ⟨c.symbol_index, cfg.handle.inner⟩ hc
          dsimp only at hset
          have hsingle : optCount (fun g' : LoadedSymbol => if g'._lib = sid then 1 else 0)
              [some (⟨cfg.handle.inner,
                (cfg.σ.valueOf cfg.handle.inner).pointers.getD c.symbol_index 0⟩
                  : LoadedSymbol)]
              = if cfg.handle.inner = sid then 1 else 0 := by
            simp [optCount]
          rw [optCount_append, hsingle]
          by_cases hsi : sid = cfg.handle.inner
          · subst hsi
            rw [hrci]
            rw [if_pos rfl] at hre hset ⊢
            rw [if_neg heq] at hset
            omega
          · by_cases hsc : sid = c.raw_lib
            · subst hsc
              rw [hrcc]
              rw [if_neg (fun hx : cfg.handle.inner = c.raw_lib => heq hx.symm)]
                at hre hset ⊢
              rw [if_pos rfl] at hset
              omega
            · rw [hrco sid hsi hsc]
              rw [if_neg (fun hx : cfg.handle.inner = sid => hsi hx.symm)] at hre hset ⊢
              rw [if_neg (fun hx : c.raw_lib = sid => hsc hx.symm)] at hset
              omega
        · intro mid hm
          dsimp only at hm ⊢
          rw [hopen]
          by_cases hge : 2 ≤ cfg.σ.rcOf c.raw_lib
          · obtain ⟨hst', _, _, _, _⟩ := hstay hge
            rw [hst'] at hm
            exact hI.opens_lt mid hm
          · obtain ⟨hev, _, _, _⟩ := hrem (by omega)
            rw [hev] at hm
            rcases List.mem_append.mp hm with hm | hm
            · exact hI.opens_lt mid hm
            · simp at hm
        · intro mid
          dsimp only
          by_cases hge : 2 ≤ cfg.σ.rcOf c.raw_lib
          · obtain ⟨hst', _, _, _, _⟩ := hstay hge
            rw [hst']
            exact hI.opens_le_one mid
          · obtain ⟨hev, _, _, _⟩ := hrem (by omega)
            rw [hev, opensOf_append, opensOf_closeEv]
            have := hI.opens_le_one mid
            omega
        · intro mid
          dsimp only
          by_cases hge : 2 ≤ cfg.σ.rcOf c.raw_lib
          · obtain ⟨hst', _, hcount', _, _⟩ := hstay hge
            rw [hst', hcount' mid]
            exact hI.acct mid
          · obtain ⟨hev, _, _, hcount'⟩ := hrem (by omega)
            rw [hev, opensOf_append, opensOf_closeEv, closesOf_append, closesOf_closeEv]
            have hx := hcount' mid
            have hacct := hI.acct mid
            by_cases hm : (cfg.σ.valueOf c.raw_lib)._lib.module = mid
            · rw [if_pos hm] at hx ⊢
              omega
            · rw [if_neg hm] at hx ⊢
              omega
        · intro sid hs
          dsimp only at hs ⊢
          rw [hloader]
          by_cases hsc : sid = c.raw_lib
          · subst hsc
            by_cases hge : 2 ≤ cfg.σ.rcOf c.raw_lib
            · obtain ⟨_, _, _, hval', hlive'⟩ := hstay hge
              rw [hval' c.raw_lib]
              exact hI.shape c.raw_lib hlc
            · obtain ⟨_, _, hnl, _⟩ := hrem (by omega)
              exact absurd hs hnl
          · rw [hvalo sid hsc]
            exact hI.shape sid ((hliveo sid hsc).mp hs)
        · intro j c' hc'
          dsimp only at hc' ⊢
          rcases getElem_set_some_inv cfg.cursors i j ⟨c.symbol_index, cfg.handle.inner⟩
            c' hc' with hcc | hcc
          · rw [hcc]
            exact hI.cursor_idx i c hc
          · exact hI.cursor_idx j c' hcc

theorem hfind_isSome_of_mem_keys (x : Nat) (h : List HCell)
    (hx : x ∈ keysOf h) : (hfind x h).isSome = true := by
  induction h with
  | nil => simp [keysOf] at hx
  | cons c rest ih =>
    by_cases hcx : c.sid = x
    · rw [hfind, if_pos hcx]
      rfl
    · rw [hfind, if_neg hcx]
      refine ih ?_
      simp only [keysOf, List.map_cons, List.mem_cons] at hx
      rcases hx with hx | hx
      · exact absurd hx.symm hcx
      · exact hx

theorem Sys.fresh_none (σ : Sys) (hlt : ∀ sid, σ.live sid → sid < σ.nextId) :
    hfind σ.nextId σ.heap = none := by
  cases hc : hfind σ.nextId σ.heap with
  | none => rfl
  | some c =>
    have : σ.live σ.nextId := by
      unfold Sys.live
      rw [hc]
      rfl
    exact absurd (hlt σ.nextId this) (by omega)

theorem Sys.hfind_alloc_self (σ : Sys) (v : Inner)
    (hf : hfind σ.nextId σ.heap = none) :
    hfind σ.nextId (σ.alloc v).2.heap = some ⟨σ.nextId, v, 1⟩ := by
  rw [Sys.hfind_alloc, hf, if_pos rfl]
  rfl

theorem Sys.hfind_alloc_other (σ : Sys) (v : Inner) (y : Nat) (hy : y ≠ σ.nextId) :
    hfind y (σ.alloc v).2.heap = hfind y σ.heap := by
  rw [Sys.hfind_alloc, if_neg (fun hc => hy hc.symm)]
  cases hfind y σ.heap <;> rfl

/-! ### Net effect of `new` and `reload` -/

/-- The system state after a successful open-and-resolve of a fresh
snapshot (shared tail of `ReloadableLibrary::new` and
`ReloadableLibrary::reload`): the open event is logged and the fresh
`Arc<Inner>` allocation holds one strong reference. -/
def Sys.afterBuild (σ : Sys) (ptrs : List Addr) : Sys :=
  ⟨⟨σ.st.loader, σ.st.openCalls + 1, σ.st.events ++ [Event.openEv σ.st.openCalls]⟩,
    σ.heap ++ [⟨σ.nextId, ⟨⟨σ.st.openCalls⟩, ptrs⟩, 1⟩], σ.nextId + 1⟩

theorem afterBuild_st (σ : Sys) (ptrs : List Addr) :
    (σ.afterBuild ptrs).st
      = ⟨σ.st.loader, σ.st.openCalls + 1,
        σ.st.events ++ [Event.openEv σ.st.openCalls]⟩ := rfl

theorem afterBuild_nextId (σ : Sys) (ptrs : List Addr) :
    (σ.afterBuild ptrs).nextId = σ.nextId + 1 := rfl

theorem afterBuild_hfind_self (σ : Sys) (ptrs : List Addr)
    (hfresh : hfind σ.nextId σ.heap = none) :
    hfind σ.nextId (σ.afterBuild ptrs).heap
      = some ⟨σ.nextId, ⟨⟨σ.st.openCalls⟩, ptrs⟩, 1⟩ := by
  unfold Sys.afterBuild
  dsimp only
  rw [hfind_append, hfresh]
  simp [hfind]

theorem afterBuild_hfind_other (σ : Sys) (ptrs : List Addr) (y : Nat)
    (hy : y ≠ σ.nextId) :
    hfind y (σ.afterBuild ptrs).heap = hfind y σ.heap := by
  unfold Sys.afterBuild
  dsimp only
  rw [hfind_append]
  rw [show hfind y [(⟨σ.nextId, ⟨⟨σ.st.openCalls⟩, ptrs⟩, 1⟩ : HCell)] = none from by
    rw [hfind, if_neg (fun hc => hy hc.symm)]
    rfl]
  cases hfind y σ.heap <;> rfl

theorem afterBuild_keys (σ : Sys) (ptrs : List Addr) :
    keysOf (σ.afterBuild ptrs).heap = keysOf σ.heap ++ [σ.nextId] := by
  unfold Sys.afterBuild
  simp [keysOf]

theorem afterBuild_nodup (σ : Sys) (ptrs : List Addr)
    (hnd : (keysOf σ.heap).Nodup) (hlt : ∀ sid, σ.live sid → sid < σ.nextId) :
    (keysOf (σ.afterBuild ptrs).heap).Nodup := by
  rw [afterBuild_keys, List.nodup_append]
  refine ⟨hnd, List.nodup_singleton _, ?_⟩
  intro a ha hb
  simp only [List.mem_singleton] at hb
  subst hb
  have hla : σ.live σ.nextId := by
    unfold Sys.live
    rw [hfind_isSome_of_mem_keys _ σ.heap ha]
  have := hlt σ.nextId hla
  omega

theorem afterBuild_rcOf (σ : Sys) (ptrs : List Addr) (y : Nat)
    (hfresh : hfind σ.nextId σ.heap = none) :
    (σ.afterBuild ptrs).rcOf y = if y = σ.nextId then 1 else σ.rcOf y := by
  unfold Sys.rcOf
  by_cases hy : y = σ.nextId
  · subst hy
    rw [afterBuild_hfind_self σ ptrs hfresh, if_pos rfl]
  · rw [afterBuild_hfind_other σ ptrs y hy, if_neg hy]

theorem afterBuild_valueOf_self (σ : Sys) (ptrs : List Addr)
    (hfresh : hfind σ.nextId σ.heap = none) :
    (σ.afterBuild ptrs).valueOf σ.nextId = ⟨⟨σ.st.openCalls⟩, ptrs⟩ := by
  unfold Sys.valueOf
  rw [afterBuild_hfind_self σ ptrs hfresh]

theorem afterBuild_valueOf_other (σ : Sys) (ptrs : List Addr) (y : Nat)
    (hy : y ≠ σ.nextId) :
    (σ.afterBuild ptrs).valueOf y = σ.valueOf y := by
  unfold Sys.valueOf
  rw [afterBuild_hfind_other σ ptrs y hy]

theorem afterBuild_live (σ : Sys) (ptrs : List Addr) (y : Nat)
    (hfresh : hfind σ.nextId σ.heap = none) :
    ((σ.afterBuild ptrs).live y ↔ (y = σ.nextId ∨ σ.live y)) := by
  unfold Sys.live
  by_cases hy : y = σ.nextId
  · subst hy
    rw [afterBuild_hfind_self σ ptrs hfresh]
    simp [hfresh]
  · rw [afterBuild_hfind_other σ ptrs y hy]
    simp [hy]

theorem afterBuild_heapCount (σ : Sys) (ptrs : List Addr) (mid : Nat) :
    heapCount (σ.afterBuild ptrs) mid
      = heapCount σ mid + (if σ.st.openCalls = mid then 1 else 0) := by
  unfold Sys.afterBuild heapCount
  dsimp only
  rw [List.countP_append, List.countP_cons, List.countP_nil]
  by_cases hm : σ.st.openCalls = mid
  · rw [if_pos hm]
    simp [hm]
  · rw [if_neg hm]
    simp [hm]

theorem afterBuild_opensOf (σ : Sys) (ptrs : List Addr) (mid : Nat) :
    opensOf (σ.afterBuild ptrs).st.events mid
      = opensOf σ.st.events mid + (if σ.st.openCalls = mid then 1 else 0) := by
  rw [afterBuild_st]
  dsimp only
  rw [opensOf_append, opensOf_openEv]

theorem afterBuild_closesOf (σ : Sys) (ptrs : List Addr) (mid : Nat) :
    closesOf (σ.afterBuild ptrs).st.events mid = closesOf σ.st.events mid := by
  rw [afterBuild_st]
  dsimp only
  rw [closesOf_append, closesOf_openEv]
  omega

theorem new_spec_openFail (name : CString) (symbols : List CString) (σ : Sys)
    (ho : σ.st.loader.openOk σ.st.openCalls name = false) :
    ReloadableLibrary.new name symbols σ = (.error (.couldNotLoadLibrary name),
      { σ with st := { σ.st with openCalls := σ.st.openCalls + 1 } }) := by
  unfold ReloadableLibrary.new Library.load
  rw [if_neg (by rw [ho]; exact Bool.false_ne_true)]

theorem new_spec_symFail (name : CString) (symbols : List CString) (σ : Sys) (p : Panic)
    (ho : σ.st.loader.openOk σ.st.openCalls name = true)
    (hr : resolvePointers σ.st.loader ⟨σ.st.openCalls⟩ symbols = .error p) :
    ReloadableLibrary.new name symbols σ = (.error p,
      { σ with st :=
          { σ.st with
            openCalls := σ.st.openCalls + 1,
            events := σ.st.events ++ [Event.openEv σ.st.openCalls] ++ [Event.closeEv σ.st.openCalls] } }) := by
  unfold ReloadableLibrary.new Library.load
  rw [if_pos (by exact ho)]
  dsimp only
  unfold Inner.new
  dsimp only
  rw [hr]
  dsimp only [Library.drop]

theorem new_spec_ok (name : CString) (symbols : List CString) (σ : Sys)
    (ptrs : List Addr)
    (ho : σ.st.loader.openOk σ.st.openCalls name = true)
    (hr : resolvePointers σ.st.loader ⟨σ.st.openCalls⟩ symbols = .ok ptrs) :
    ReloadableLibrary.new name symbols σ
      = (.ok ⟨name, σ.nextId, symbols⟩, σ.afterBuild ptrs) := by
  unfold ReloadableLibrary.new Library.load
  rw [if_pos (by exact ho)]
  dsimp only
  unfold Inner.new
  dsimp only
  rw [hr]
  dsimp only
  unfold Sys.alloc Sys.afterBuild
  rfl

theorem reload_spec_openFail (h : ReloadableLibrary) (σ : Sys)
    (ho : σ.st.loader.openOk σ.st.openCalls h.name = false) :
    ReloadableLibrary.reload h σ = (.error (.couldNotReloadLibrary h.name),
      { σ with st := { σ.st with openCalls := σ.st.openCalls + 1 } }) := by
  unfold ReloadableLibrary.reload Library.load
  rw [if_neg (by rw [ho]; exact Bool.false_ne_true)]

theorem reload_spec_symFail (h : ReloadableLibrary) (σ : Sys) (p : Panic)
    (ho : σ.st.loader.openOk σ.st.openCalls h.name = true)
    (hr : resolvePointers σ.st.loader ⟨σ.st.openCalls⟩ h.symbols = .error p) :
    ReloadableLibrary.reload h σ = (.error p,
      { σ with st :=
          { σ.st with
            openCalls := σ.st.openCalls + 1,
            events := σ.st.events ++ [Event.openEv σ.st.openCalls] ++ [Event.closeEv σ.st.openCalls] } }) := by
  unfold ReloadableLibrary.reload Library.load
  rw [if_pos (by exact ho)]
  dsimp only
  unfold Inner.new
  dsimp only
  rw [hr]
  dsimp only [Library.drop]

theorem reload_spec_ok (h : ReloadableLibrary) (σ : Sys) (ptrs : List Addr)
    (ho : σ.st.loader.openOk σ.st.openCalls h.name = true)
    (hr : resolvePointers σ.st.loader ⟨σ.st.openCalls⟩ h.symbols = .ok ptrs) :
    ReloadableLibrary.reload h σ
      = (.ok { h with inner := σ.nextId },
        Sys.decRef h.inner (σ.afterBuild ptrs)) := by
  unfold ReloadableLibrary.reload Library.load
  rw [if_pos (by exact ho)]
  dsimp only
  unfold Inner.new
  dsimp only
  rw [hr]
  dsimp only
  unfold Sys.alloc Sys.afterBuild
  rfl

theorem wf_reload (cfg : Config) (hI : Wf cfg) : Wf (cfg.step Cmd.reload) := by
  have hopens_fresh : opensOf cfg.σ.st.events cfg.σ.st.openCalls = 0 := by
    by_contra hpos
    have := hI.opens_lt cfg.σ.st.openCalls
      (mem_of_opensOf_pos _ _ (by omega))
    omega
  unfold Config.step
  dsimp only
  by_cases ho : cfg.σ.st.loader.openOk cfg.σ.st.openCalls cfg.handle.name = true
  case neg =>
    rw [reload_spec_openFail cfg.handle cfg.σ (by simpa using ho)]
    dsimp only
    constructor
    · exact hI.keys_nodup
    · exact hI.keys_lt
    · exact hI.rc_pos
    · exact hI.rc_eq
    · intro mid hm
      dsimp only at hm ⊢
      have := hI.opens_lt mid hm
      omega
    · exact hI.opens_le_one
    · exact hI.acct
    · exact hI.shape
    · exact hI.cursor_idx
  case pos =>
    cases hr : resolvePointers cfg.σ.st.loader ⟨cfg.σ.st.openCalls⟩ cfg.handle.symbols with
    | error p =>
      rw [reload_spec_symFail cfg.handle cfg.σ p ho hr]
      dsimp only
      constructor
      · exact hI.keys_nodup
      · exact hI.keys_lt
      · exact hI.rc_pos
      · exact hI.rc_eq
      · intro mid hm
        dsimp only at hm ⊢
        rcases List.mem_append.mp hm with hm | hm
        · rcases List.mem_append.mp hm with hm | hm
          · have := hI.opens_lt mid hm
            omega
          · simp at hm
            omega
        · simp at hm
      · intro mid
        dsimp only
        rw [opensOf_append, opensOf_append, opensOf_openEv, opensOf_closeEv]
        have h1 := hI.opens_le_one mid
        by_cases hm : cfg.σ.st.openCalls = mid
        · subst hm
          rw [if_pos rfl]
          omega
        · rw [if_neg hm]
          omega
      · intro mid
        dsimp only
        rw [opensOf_append, opensOf_append, opensOf_openEv, opensOf_closeEv,
          closesOf_append, closesOf_append, closesOf_openEv, closesOf_closeEv]
        have h1 := hI.acct mid
        unfold heapCount at h1 ⊢
        dsimp only at h1 ⊢
        by_cases hm : cfg.σ.st.openCalls = mid
        · rw [if_pos hm]
          omega
        · rw [if_neg hm]
          omega
      · intro sid hs
        dsimp only at hs ⊢
        exact hI.shape sid hs
      · exact hI.cursor_idx
    | ok ptrs =>
      rw [reload_spec_ok cfg.handle cfg.σ ptrs ho hr]
      dsimp only
      have hfresh : hfind cfg.σ.nextId cfg.σ.heap = none :=
        Sys.fresh_none cfg.σ hI.keys_lt
      have hndA := afterBuild_nodup cfg.σ ptrs hI.keys_nodup hI.keys_lt
      have holdlive := hI.current_live
      have holdlt := hI.keys_lt cfg.handle.inner holdlive
      have hne_old : cfg.handle.inner ≠ cfg.σ.nextId := by omega
      have hliveA : (cfg.σ.afterBuild ptrs).live cfg.handle.inner :=
        (afterBuild_live cfg.σ ptrs cfg.handle.inner hfresh).mpr (Or.inr holdlive)
      obtain ⟨cOldA, hcOldA⟩ := Option.isSome_iff_exists.mp hliveA
      have hcOldArc : cOldA.rc = cfg.σ.rcOf cfg.handle.inner := by
        have h1 := (Sys.rcOf_eq_of_hfind _ cfg.handle.inner cOldA hcOldA).symm
        rw [afterBuild_rcOf cfg.σ ptrs cfg.handle.inner hfresh, if_neg hne_old] at h1
        exact h1
      have hcOldAval : cOldA.val = cfg.σ.valueOf cfg.handle.inner := by
        have h1 := (Sys.valueOf_eq_of_hfind _ cfg.handle.inner cOldA hcOldA).symm
        rw [afterBuild_valueOf_other cfg.σ ptrs cfg.handle.inner hne_old] at h1
        exact h1
      have hrcposOld := hI.rc_pos cfg.handle.inner holdlive
      have hlen := resolvePointers_ok_length _ _ _ _ hr
      have hgetD := resolvePointers_ok_getD _ _ _ _ hr
      constructor
      · exact hndA.sublist (Sys.keysOf_decRef_sublist (cfg.σ.afterBuild ptrs) cfg.handle.inner)
      · intro sid hs
        dsimp only at hs ⊢
        rw [Sys.decRef_nextId, afterBuild_nextId]
        have hsA := Sys.live_of_live_decRef (cfg.σ.afterBuild ptrs) cfg.handle.inner sid hndA hs
        rcases (afterBuild_live cfg.σ ptrs sid hfresh).mp hsA with hsid | hsid
        · omega
        · have := hI.keys_lt sid hsid
          omega
      · intro sid hs
        dsimp only at hs ⊢
        rw [Sys.rcOf_decRef _ cfg.handle.inner sid hndA,
          afterBuild_rcOf cfg.σ ptrs cfg.handle.inner hfresh, if_neg hne_old]
        by_cases hso : sid = cfg.handle.inner
        · subst hso
          rw [if_pos rfl]
          by_cases hge : 2 ≤ cfg.σ.rcOf cfg.handle.inner
          · omega
          · exfalso
            refine Sys.not_live_decRef_rem _ cfg.handle.inner cOldA hndA hcOldA
              (by omega) hs
        · rw [if_neg hso, afterBuild_rcOf cfg.σ ptrs sid hfresh]
          by_cases hsn : sid = cfg.σ.nextId
          · rw [if_pos hsn]
            omega
          · rw [if_neg hsn]
            have hsA := Sys.live_of_live_decRef (cfg.σ.afterBuild ptrs)
              cfg.handle.inner sid hndA hs
            rcases (afterBuild_live cfg.σ ptrs sid hfresh).mp hsA with hsid | hsid
            · exact absurd hsid hsn
            · exact hI.rc_pos sid hsid
      · intro sid
        dsimp only
        have hre := hI.rc_eq sid
        unfold refsTo at hre ⊢
        dsimp only
        rw [Sys.rcOf_decRef _ cfg.handle.inner sid hndA,
          afterBuild_rcOf cfg.σ ptrs cfg.handle.inner hfresh, if_neg hne_old]
        by_cases hsn : sid = cfg.σ.nextId
        · subst hsn
          rw [if_neg (fun hc : cfg.σ.nextId = cfg.handle.inner => hne_old hc.symm),
            afterBuild_rcOf cfg.σ ptrs cfg.σ.nextId hfresh, if_pos rfl]
          rw [if_pos rfl]
          have hzero : cfg.σ.rcOf cfg.σ.nextId = 0 := by
            unfold Sys.rcOf
            rw [hfresh]
          rw [if_neg (fun hc : cfg.handle.inner = cfg.σ.nextId => hne_old hc)] at hre
          omega
        · rw [afterBuild_rcOf cfg.σ ptrs sid hfresh, if_neg hsn,
            if_neg (fun hc : cfg.σ.nextId = sid => hsn hc.symm)]
          by_cases hso : sid = cfg.handle.inner
          · subst hso
            rw [if_pos rfl]
            rw [if_pos rfl] at hre
            omega
          · rw [if_neg hso]
            rw [if_neg (fun hc : cfg.handle.inner = sid => hso hc.symm)] at hre
            omega
      · intro mid hm
        dsimp only at hm ⊢
        rw [Sys.decRef_openCalls, afterBuild_st]
        dsimp only
        have hmA := Sys.openEv_mem_decRef (cfg.σ.afterBuild ptrs) cfg.handle.inner mid hm
        rw [afterBuild_st] at hmA
        dsimp only at hmA
        rcases List.mem_append.mp hmA with hmA | hmA
        · have := hI.opens_lt mid hmA
          omega
        · simp at hmA
          omega
      · intro mid
        dsimp only
        rw [Sys.opensOf_decRef, afterBuild_opensOf]
        have h1 := hI.opens_le_one mid
        by_cases hm : cfg.σ.st.openCalls = mid
        · subst hm
          rw [if_pos rfl]
          omega
        · rw [if_neg hm]
          omega
      · intro mid
        dsimp only
        refine Sys.acct_decRef (cfg.σ.afterBuild ptrs) cfg.handle.inner ?_ mid
        intro mid'
        rw [afterBuild_opensOf, afterBuild_closesOf, afterBuild_heapCount]
        have h1 := hI.acct mid'
        omega
      · intro sid hs
        dsimp only at hs ⊢
        rw [Sys.decRef_loader, afterBuild_st]
        dsimp only
        rw [Sys.valueOf_decRef_live _ cfg.handle.inner sid hndA hs]
        have hsA := Sys.live_of_live_decRef (cfg.σ.afterBuild ptrs) cfg.handle.inner sid hndA hs
        rcases (afterBuild_live cfg.σ ptrs sid hfresh).mp hsA with hsid | hsid
        · subst hsid
          rw [afterBuild_valueOf_self cfg.σ ptrs hfresh]
          dsimp only
          exact ⟨hlen, hgetD⟩
        · by_cases hsn : sid = cfg.σ.nextId
          · subst hsn
            rw [afterBuild_valueOf_self cfg.σ ptrs hfresh]
            dsimp only
            exact ⟨hlen, hgetD⟩
          · rw [afterBuild_valueOf_other cfg.σ ptrs sid hsn]
            exact hI.shape sid hsid
      · intro j c hc
        dsimp only at hc ⊢
        exact hI.cursor_idx j c hc

theorem wf_step (cfg : Config) (hI : Wf cfg) (cmd : Cmd) : Wf (cfg.step cmd) := by
  cases cmd with
  | reload => exact wf_reload cfg hI
  | mkCursor name => exact wf_mkCursor cfg hI name
  | pin i => exact wf_pin cfg hI i
  | dropGuard i => exact wf_dropGuard cfg hI i
  | dropCursor i => exact wf_dropCursor cfg hI i

theorem wf_run (cfg : Config) (hI : Wf cfg) (cmds : List Cmd) : Wf (cfg.run cmds) := by
  induction cmds generalizing cfg with
  | nil => exact hI
  | cons cmd rest ih =>
    rw [Config.run]
    exact ih _ (wf_step cfg hI cmd)

theorem hfind_mem (x : Nat) (h : List HCell) (c : HCell)
    (hf : hfind x h = some c) : c ∈ h := by
  induction h with
  | nil => simp [hfind] at hf
  | cons b rest ih =>
    by_cases hbx : b.sid = x
    · rw [hfind, if_pos hbx] at hf
      exact (Option.some.inj hf) ▸ List.mem_cons_self _ _
    · rw [hfind, if_neg hbx] at hf
      exact List.mem_cons_of_mem _ (ih hf)

theorem heapCount_pos_of_live (σ : Sys) (sid : Nat) (hl : σ.live sid) :
    0 < heapCount σ ((σ.valueOf sid)._lib.module) := by
  obtain ⟨c, hc⟩ := Option.isSome_iff_exists.mp hl
  have hval := Sys.valueOf_eq_of_hfind σ sid c hc
  unfold heapCount
  rw [List.countP_pos]
  exact ⟨c, hfind_mem sid σ.heap c hc, by simp [hval]⟩

/-- A snapshot that is still referenced (by the atomic slot, a cursor's
cache or a guard) is live and its module has never been closed. -/
theorem Wf.referenced_not_closed {cfg : Config} (hI : Wf cfg) (sid : Nat)
    (h : 0 < refsTo cfg sid) :
    cfg.σ.live sid ∧ closesOf cfg.σ.st.events ((cfg.σ.valueOf sid)._lib.module) = 0 := by
  have hl := hI.live_of_refs sid h
  refine ⟨hl, ?_⟩
  have hpos := heapCount_pos_of_live cfg.σ sid hl
  have hacct := hI.acct ((cfg.σ.valueOf sid)._lib.module)
  have hone := hI.opens_le_one ((cfg.σ.valueOf sid)._lib.module)
  omega

theorem hfind_decHeap_stay_eq (x : Nat) (h : List HCell) (c : HCell)
    (hf : hfind x h = some c) (hrc : ¬ c.rc ≤ 1) :
    hfind x (decHeap x h) = some { c with rc := c.rc - 1 } := by
  induction h with
  | nil => simp [hfind] at hf
  | cons b rest ih =>
    by_cases hbx : b.sid = x
    · rw [hfind, if_pos hbx] at hf
      have hbc : b = c := Option.some.inj hf
      subst hbc
      rw [decHeap, if_pos hbx, if_neg hrc, hfind, if_pos hbx]
    · rw [hfind, if_neg hbx] at hf
      rw [decHeap, if_neg hbx, hfind, if_neg hbx]
      exact ih hf

theorem Sys.valueOf_decRef_all (σ : Sys) (x : Nat) (c : HCell)
    (hf : hfind x σ.heap = some c) (hrc : ¬ c.rc ≤ 1) :
    ∀ y, (σ.decRef x).valueOf y = σ.valueOf y := by
  intro y
  by_cases hyx : y = x
  · subst hyx
    rw [Sys.decRef_stay σ y c hf hrc]
    simp only [Sys.valueOf]
    rw [hfind_decHeap_stay_eq y σ.heap c hf hrc, hf]
  · exact Sys.valueOf_decRef_ne σ x y hyx

/-- The guard returned by `get_loaded` always pins the handle's current
snapshot and exposes that single snapshot's address at the cursor's
index. -/
theorem get_loaded_addr (c : ReloadableSymbol) (h : ReloadableLibrary) (σ : Sys) :
    (ReloadableSymbol.get_loaded c h σ).1
      = ⟨h.inner, (σ.valueOf h.inner).pointers.getD c.symbol_index 0⟩ := by
  unfold ReloadableSymbol.get_loaded
  dsimp only
  by_cases heq : c.raw_lib = h.inner
  · rw [if_pos heq]
    dsimp only
    rw [heq]
    cases hl : hfind h.inner σ.heap with
    | none =>
      have h2 : Sys.incRef h.inner σ = σ := by
        unfold Sys.incRef
        rw [incHeap_of_none h.inner σ.heap hl]
      rw [h2, h2, Sys.decRef_of_none σ h.inner hl]
    | some cell =>
      have hlv : σ.live h.inner := by
        unfold Sys.live
        rw [hl]
        rfl
      have hl1 : (Sys.incRef h.inner σ).live h.inner :=
        (Sys.live_incRef σ h.inner h.inner).mpr hlv
      have hl2 : (Sys.incRef h.inner (Sys.incRef h.inner σ)).live h.inner :=
        (Sys.live_incRef _ h.inner h.inner).mpr hl1
      obtain ⟨cell2, hcell2⟩ := Option.isSome_iff_exists.mp hl2
      have hrc2 : cell2.rc = σ.rcOf h.inner + 2 := by
        have hx := Sys.rcOf_eq_of_hfind _ h.inner cell2 hcell2
        rw [Sys.rcOf_incRef _ h.inner h.inner hl1, if_pos rfl,
          Sys.rcOf_incRef σ h.inner h.inner hlv, if_pos rfl] at hx
        omega
      have hge : ¬ cell2.rc ≤ 1 := by omega
      rw [Sys.valueOf_decRef_all _ h.inner cell2 hcell2 hge h.inner,
        Sys.valueOf_incRef, Sys.valueOf_incRef]
  · rw [if_neg heq]
    dsimp only
    rw [Sys.valueOf_decRef_ne _ c.raw_lib h.inner (fun hc => heq hc.symm),
      Sys.valueOf_decRef_ne _ c.raw_lib h.inner (fun hc => heq hc.symm),
      Sys.valueOf_incRef, Sys.valueOf_incRef, Sys.valueOf_incRef]

theorem get_loaded_nextId (c : ReloadableSymbol) (h : ReloadableLibrary) (σ : Sys) :
    (ReloadableSymbol.get_loaded c h σ).2.2.nextId = σ.nextId := by
  unfold ReloadableSymbol.get_loaded
  dsimp only
  by_cases heq : c.raw_lib = h.inner
  · rw [if_pos heq]
    dsimp only
    rw [Sys.decRef_nextId, Sys.incRef_nextId, Sys.incRef_nextId]
  · rw [if_neg heq]
    dsimp only
    rw [Sys.decRef_nextId, Sys.decRef_nextId, Sys.incRef_nextId, Sys.incRef_nextId,
      Sys.incRef_nextId]

theorem get_loaded_loader (c : ReloadableSymbol) (h : ReloadableLibrary) (σ : Sys) :
    (ReloadableSymbol.get_loaded c h σ).2.2.st.loader = σ.st.loader := by
  unfold ReloadableSymbol.get_loaded
  dsimp only
  by_cases heq : c.raw_lib = h.inner
  · rw [if_pos heq]
    dsimp only
    rw [Sys.decRef_loader, Sys.incRef_st, Sys.incRef_st]
  · rw [if_neg heq]
    dsimp only
    rw [Sys.decRef_loader, Sys.decRef_loader, Sys.incRef_st, Sys.incRef_st, Sys.incRef_st]

theorem get_symbol_sys (h : ReloadableLibrary) (sym : CString) (σ : Sys) :
    (ReloadableLibrary.get_symbol h sym σ).2.st = σ.st ∧
    (∀ y, ((ReloadableLibrary.get_symbol h sym σ).2.live y ↔ σ.live y)) ∧
    (∀ y, (ReloadableLibrary.get_symbol h sym σ).2.valueOf y = σ.valueOf y) ∧
    (ReloadableLibrary.get_symbol h sym σ).2.nextId = σ.nextId := by
  unfold ReloadableLibrary.get_symbol
  cases h.symbols.findIdx? (fun x => x == sym) with
  | none => exact ⟨rfl, fun y => Iff.rfl, fun y => rfl, rfl⟩
  | some i =>
    exact ⟨rfl, fun y => Sys.live_incRef σ h.inner y,
      fun y => Sys.valueOf_incRef σ h.inner y, rfl⟩

theorem reload_error_state (h : ReloadableLibrary) (σ : Sys) (p : Panic) (σ' : Sys)
    (hr : ReloadableLibrary.reload h σ = (.error p, σ')) :
    σ'.heap = σ.heap ∧ σ'.nextId = σ.nextId ∧ σ'.st.loader = σ.st.loader := by
  by_cases ho : σ.st.loader.openOk σ.st.openCalls h.name = true
  · cases hres : resolvePointers σ.st.loader ⟨σ.st.openCalls⟩ h.symbols with
    | ok ptrs =>
      rw [reload_spec_ok h σ ptrs ho hres] at hr
      simp at hr
    | error q =>
      rw [reload_spec_symFail h σ q ho hres] at hr
      have h2 := congrArg Prod.snd hr
      dsimp only at h2
      rw [← h2]
      exact ⟨rfl, rfl, rfl⟩
  · rw [reload_spec_openFail h σ (by simpa using ho)] at hr
    have h2 := congrArg Prod.snd hr
    dsimp only at h2
    rw [← h2]
    exact ⟨rfl, rfl, rfl⟩

theorem step_reload_error (cfg : Config) (p : Panic) (σ' : Sys)
    (hr : ReloadableLibrary.reload cfg.handle cfg.σ = (.error p, σ')) :
    cfg.step Cmd.reload = { cfg with σ := σ' } := by
  unfold Config.step
  dsimp only
  rw [hr]

theorem step_handle_fixed (cfg : Config) (cmd : Cmd) :
    (cfg.step cmd).handle.name = cfg.handle.name ∧
    (cfg.step cmd).handle.symbols = cfg.handle.symbols := by
  cases cmd with
  | reload =>
    unfold Config.step
    dsimp only
    cases hr : ReloadableLibrary.reload cfg.handle cfg.σ with
    | mk r σ' =>
      cases r with
      | ok h' =>
        dsimp only
        by_cases ho : cfg.σ.st.loader.openOk cfg.σ.st.openCalls cfg.handle.name = true
        · cases hres : resolvePointers cfg.σ.st.loader ⟨cfg.σ.st.openCalls⟩
            cfg.handle.symbols with
          | ok ptrs =>
            rw [reload_spec_ok cfg.handle cfg.σ ptrs ho hres] at hr
            have h1 := congrArg Prod.fst hr
            dsimp only at h1
            have h2 : ReloadableLibrary.mk cfg.handle.name cfg.σ.nextId cfg.handle.symbols
                = h' := Except.ok.inj h1
            rw [← h2]
            exact ⟨rfl, rfl⟩
          | error q =>
            rw [reload_spec_symFail cfg.handle cfg.σ q ho hres] at hr
            have h1 := congrArg Prod.fst hr
            simp at h1
        · rw [reload_spec_openFail cfg.handle cfg.σ (by simpa using ho)] at hr
          have h1 := congrArg Prod.fst hr
          simp at h1
      | error p =>
        exact ⟨rfl, rfl⟩
  | mkCursor name =>
    unfold Config.step
    dsimp only
    cases ReloadableLibrary.get_symbol cfg.handle name cfg.σ with
    | mk oc σ' => exact ⟨rfl, rfl⟩
  | pin i =>
    unfold Config.step
    dsimp only
    cases hc : cfg.cursors[i]? with
    | none => exact ⟨rfl, rfl⟩
    | some oc =>
      cases oc with
      | none => exact ⟨rfl, rfl⟩
      | some c =>
        cases ReloadableSymbol.get_loaded c cfg.handle cfg.σ with
        | mk g r =>
          cases r with
          | mk c' σ' => exact ⟨rfl, rfl⟩
  | dropGuard i =>
    unfold Config.step
    dsimp only
    cases cfg.guards[i]? with
    | none => exact ⟨rfl, rfl⟩
    | some og =>
      cases og with
      | none => exact ⟨rfl, rfl⟩
      | some g => exact ⟨rfl, rfl⟩
  | dropCursor i =>
    unfold Config.step
    dsimp only
    cases cfg.cursors[i]? with
    | none => exact ⟨rfl, rfl⟩
    | some oc =>
      cases oc with
      | none => exact ⟨rfl, rfl⟩
      | some c => exact ⟨rfl, rfl⟩

theorem run_handle_fixed (cfg : Config) (cmds : List Cmd) :
    (cfg.run cmds).handle.name = cfg.handle.name ∧
    (cfg.run cmds).handle.symbols = cfg.handle.symbols := by
  induction cmds generalizing cfg with
  | nil => exact ⟨rfl, rfl⟩
  | cons cmd rest ih =>
    rw [Config.run]
    obtain ⟨h1, h2⟩ := ih (cfg.step cmd)
    obtain ⟨h3, h4⟩ := step_handle_fixed cfg cmd
    exact ⟨h1.trans h3, h2.trans h4⟩

theorem step_loader_fixed (cfg : Config) (cmd : Cmd) :
    (cfg.step cmd).σ.st.loader = cfg.σ.st.loader := by
  cases cmd with
  | reload =>
    unfold Config.step
    dsimp only
    cases hr : ReloadableLibrary.reload cfg.handle cfg.σ with
    | mk r σ' =>
      cases r with
      | ok h' =>
        dsimp only
        by_cases ho : cfg.σ.st.loader.openOk cfg.σ.st.openCalls cfg.handle.name = true
        · cases hres : resolvePointers cfg.σ.st.loader ⟨cfg.σ.st.openCalls⟩
            cfg.handle.symbols with
          | ok ptrs =>
            rw [reload_spec_ok cfg.handle cfg.σ ptrs ho hres] at hr
            have h2 := congrArg Prod.snd hr
            dsimp only at h2
            rw [← h2, Sys.decRef_loader, afterBuild_st]
          | error q =>
            rw [reload_spec_symFail cfg.handle cfg.σ q ho hres] at hr
            have h1 := congrArg Prod.fst hr
            simp at h1
        · rw [reload_spec_openFail cfg.handle cfg.σ (by simpa using ho)] at hr
          have h1 := congrArg Prod.fst hr
          simp at h1
      | error p =>
        dsimp only
        exact (reload_error_state cfg.handle cfg.σ p σ' hr).2.2
  | mkCursor name =>
    unfold Config.step
    dsimp only
    have := (get_symbol_sys cfg.handle name cfg.σ).1
    cases hgs : ReloadableLibrary.get_symbol cfg.handle name cfg.σ with
    | mk oc σ' =>
      dsimp only
      rw [hgs] at this
      dsimp only at this
      rw [this]
  | pin i =>
    unfold Config.step
    dsimp only
    cases hc : cfg.cursors[i]? with
    | none => rfl
    | some oc =>
      cases oc with
      | none => rfl
      | some c =>
        exact get_loaded_loader c cfg.handle cfg.σ
  | dropGuard i =>
    unfold Config.step
    dsimp only
    cases cfg.guards[i]? with
    | none => rfl
    | some og =>
      cases og with
      | none => rfl
      | some g =>
        dsimp only
        rw [Sys.decRef_loader]
  | dropCursor i =>
    unfold Config.step
    dsimp only
    cases cfg.cursors[i]? with
    | none => rfl
    | some oc =>
      cases oc with
      | none => rfl
      | some c =>
        dsimp only
        rw [Sys.decRef_loader]

theorem run_loader_fixed (cfg : Config) (cmds : List Cmd) :
    (cfg.run cmds).σ.st.loader = cfg.σ.st.loader := by
  induction cmds generalizing cfg with
  | nil => rfl
  | cons cmd rest ih =>
    rw [Config.run]
    exact (ih (cfg.step cmd)).trans (step_loader_fixed cfg cmd)

theorem live_of_heap_eq (σ σ' : Sys) (hh : σ'.heap = σ.heap) (y : Nat) :
    (σ'.live y ↔ σ.live y) := by
  unfold Sys.live
  rw [hh]

theorem valueOf_of_heap_eq (σ σ' : Sys) (hh : σ'.heap = σ.heap) (y : Nat) :
    σ'.valueOf y = σ.valueOf y := by
  unfold Sys.valueOf
  rw [hh]

theorem step_nextId_mono (cfg : Config) (cmd : Cmd) :
    cfg.σ.nextId ≤ (cfg.step cmd).σ.nextId := by
  cases cmd with
  | reload =>
    unfold Config.step
    dsimp only
    cases hr : ReloadableLibrary.reload cfg.handle cfg.σ with
    | mk r σ' =>
      cases r with
      | ok h' =>
        dsimp only
        by_cases ho : cfg.σ.st.loader.openOk cfg.σ.st.openCalls cfg.handle.name = true
        · cases hres : resolvePointers cfg.σ.st.loader ⟨cfg.σ.st.openCalls⟩
            cfg.handle.symbols with
          | ok ptrs =>
            rw [reload_spec_ok cfg.handle cfg.σ ptrs ho hres] at hr
            have h2 := congrArg Prod.snd hr
            dsimp only at h2
            rw [← h2, Sys.decRef_nextId, afterBuild_nextId]
            omega
          | error q =>
            rw [reload_spec_symFail cfg.handle cfg.σ q ho hres] at hr
            have h1 := congrArg Prod.fst hr
            simp at h1
        · rw [reload_spec_openFail cfg.handle cfg.σ (by simpa using ho)] at hr
          have h1 := congrArg Prod.fst hr
          simp at h1
      | error p =>
        dsimp only
        rw [(reload_error_state cfg.handle cfg.σ p σ' hr).2.1]
  | mkCursor name =>
    unfold Config.step
    dsimp only
    rw [(get_symbol_sys cfg.handle name cfg.σ).2.2.2]
  | pin i =>
    unfold Config.step
    dsimp only
    cases hc : cfg.cursors[i]? with
    | none => exact Nat.le_refl _
    | some oc =>
      cases oc with
      | none => exact Nat.le_refl _
      | some c =>
        rw [get_loaded_nextId c cfg.handle cfg.σ]
  | dropGuard i =>
    unfold Config.step
    dsimp only
    cases cfg.guards[i]? with
    | none => exact Nat.le_refl _
    | some og =>
      cases og with
      | none => exact Nat.le_refl _
      | some g =>
        dsimp only
        rw [Sys.decRef_nextId]
  | dropCursor i =>
    unfold Config.step
    dsimp only
    cases cfg.cursors[i]? with
    | none => exact Nat.le_refl _
    | some oc =>
      cases oc with
      | none => exact Nat.le_refl _
      | some c =>
        dsimp only
        rw [Sys.decRef_nextId]

theorem step_live_inv (cfg : Config) (hI : Wf cfg) (cmd : Cmd) (y : Nat) :
    (cfg.step cmd).σ.live y → cfg.σ.live y ∨ y = cfg.σ.nextId := by
  cases cmd with
  | reload =>
    unfold Config.step
    dsimp only
    by_cases ho : cfg.σ.st.loader.openOk cfg.σ.st.openCalls cfg.handle.name = true
    · cases hres : resolvePointers cfg.σ.st.loader ⟨cfg.σ.st.openCalls⟩
        cfg.handle.symbols with
      | ok ptrs =>
        rw [reload_spec_ok cfg.handle cfg.σ ptrs ho hres]
        dsimp only
        intro h
        have hfresh := Sys.fresh_none cfg.σ hI.keys_lt
        have hndA := afterBuild_nodup cfg.σ ptrs hI.keys_nodup hI.keys_lt
        have hA := Sys.live_of_live_decRef _ cfg.handle.inner y hndA h
        rcases (afterBuild_live cfg.σ ptrs y hfresh).mp hA with h1 | h1
        · exact Or.inr h1
        · exact Or.inl h1
      | error q =>
        rw [reload_spec_symFail cfg.handle cfg.σ q ho hres]
        dsimp only
        exact fun h => Or.inl h
    · rw [reload_spec_openFail cfg.handle cfg.σ (by simpa using ho)]
      dsimp only
      exact fun h => Or.inl h
  | mkCursor name =>
    unfold Config.step
    dsimp only
    intro h
    exact Or.inl (((get_symbol_sys cfg.handle name cfg.σ).2.1 y).mp h)
  | pin i =>
    unfold Config.step
    dsimp only
    cases hc : cfg.cursors[i]? with
    | none => exact fun h => Or.inl h
    | some oc =>
      cases oc with
      | none => exact fun h => Or.inl h
      | some c =>
        dsimp only
        intro h
        have hli := hI.current_live
        have hlc := hI.cursor_live i c hc
        by_cases heq : c.raw_lib = cfg.handle.inner
        · obtain ⟨σ', hgl, _, _, _, _, _, hlive, _⟩ :=
            get_loaded_spec_eq c cfg.handle cfg.σ heq hI.keys_nodup hli
          rw [hgl] at h
          exact Or.inl ((hlive y).mp h)
        · obtain ⟨σ', hgl, _, _, _, _, _, _, _, hliveo, _, _, _⟩ :=
            get_loaded_spec_ne c cfg.handle cfg.σ heq hI.keys_nodup hlc hli
              (hI.rc_pos c.raw_lib hlc)
          rw [hgl] at h
          by_cases hyc : y = c.raw_lib
          · subst hyc
            exact Or.inl hlc
          · exact Or.inl ((hliveo y hyc).mp h)
  | dropGuard i =>
    unfold Config.step
    dsimp only
    cases cfg.guards[i]? with
    | none => exact fun h => Or.inl h
    | some og =>
      cases og with
      | none => exact fun h => Or.inl h
      | some g =>
        dsimp only
        intro h
        exact Or.inl (Sys.live_of_live_decRef cfg.σ g._lib y hI.keys_nodup h)
  | dropCursor i =>
    unfold Config.step
    dsimp only
    cases cfg.cursors[i]? with
    | none => exact fun h => Or.inl h
    | some oc =>
      cases oc with
      | none => exact fun h => Or.inl h
      | some c =>
        dsimp only
        intro h
        exact Or.inl (Sys.live_of_live_decRef cfg.σ c.raw_lib y hI.keys_nodup h)

theorem step_valueOf_stable (cfg : Config) (hI : Wf cfg) (cmd : Cmd) (y : Nat)
    (hb : cfg.σ.live y) :
    (cfg.step cmd).σ.live y → (cfg.step cmd).σ.valueOf y = cfg.σ.valueOf y := by
  cases cmd with
  | reload =>
    unfold Config.step
    dsimp only
    by_cases ho : cfg.σ.st.loader.openOk cfg.σ.st.openCalls cfg.handle.name = true
    · cases hres : resolvePointers cfg.σ.st.loader ⟨cfg.σ.st.openCalls⟩
        cfg.handle.symbols with
      | ok ptrs =>
        rw [reload_spec_ok cfg.handle cfg.σ ptrs ho hres]
        dsimp only
        intro h
        have hfresh := Sys.fresh_none cfg.σ hI.keys_lt
        have hndA := afterBuild_nodup cfg.σ ptrs hI.keys_nodup hI.keys_lt
        have hyn : y ≠ cfg.σ.nextId := by
          have := hI.keys_lt y hb
          omega
        rw [Sys.valueOf_decRef_live _ cfg.handle.inner y hndA h,
          afterBuild_valueOf_other cfg.σ ptrs y hyn]
      | error q =>
        rw [reload_spec_symFail cfg.handle cfg.σ q ho hres]
        dsimp only
        exact fun _ => rfl
    · rw [reload_spec_openFail cfg.handle cfg.σ (by simpa using ho)]
      dsimp only
      exact fun _ => rfl
  | mkCursor name =>
    unfold Config.step
    dsimp only
    exact fun _ => (get_symbol_sys cfg.handle name cfg.σ).2.2.1 y
  | pin i =>
    unfold Config.step
    dsimp only
    cases hc : cfg.cursors[i]? with
    | none => exact fun _ => rfl
    | some oc =>
      cases oc with
      | none => exact fun _ => rfl
      | some c =>
        dsimp only
        intro h
        have hli := hI.current_live
        have hlc := hI.cursor_live i c hc
        by_cases heq : c.raw_lib = cfg.handle.inner
        · obtain ⟨σ', hgl, _, _, _, _, hval, _, _⟩ :=
            get_loaded_spec_eq c cfg.handle cfg.σ heq hI.keys_nodup hli
          rw [hgl] at h ⊢
          exact hval y
        · obtain ⟨σ', hgl, _, _, _, _, _, _, hvalo, hliveo, hstay, hrem, _⟩ :=
            get_loaded_spec_ne c cfg.handle cfg.σ heq hI.keys_nodup hlc hli
              (hI.rc_pos c.raw_lib hlc)
          rw [hgl] at h ⊢
          by_cases hyc : y = c.raw_lib
          · subst hyc
            by_cases hge : 2 ≤ cfg.σ.rcOf c.raw_lib
            · obtain ⟨_, _, _, hval', _⟩ := hstay hge
              exact hval' c.raw_lib
            · obtain ⟨_, _, hnl, _⟩ := hrem (by omega)
              exact absurd h hnl
          · exact hvalo y hyc
  | dropGuard i =>
    unfold Config.step
    dsimp only
    cases cfg.guards[i]? with
    | none => exact fun _ => rfl
    | some og =>
      cases og with
      | none => exact fun _ => rfl
      | some g =>
        dsimp only
        intro h
        exact Sys.valueOf_decRef_live cfg.σ g._lib y hI.keys_nodup h
  | dropCursor i =>
    unfold Config.step
    dsimp only
    cases cfg.cursors[i]? with
    | none => exact fun _ => rfl
    | some oc =>
      cases oc with
      | none => exact fun _ => rfl
      | some c =>
        dsimp only
        intro h
        exact Sys.valueOf_decRef_live cfg.σ c.raw_lib y hI.keys_nodup h

theorem run_dead (cfg : Config) (cmds : List Cmd) (sid : Nat) (hI : Wf cfg)
    (hdead : ¬ cfg.σ.live sid) (hlt : sid < cfg.σ.nextId) :
    ¬ (cfg.run cmds).σ.live sid := by
  induction cmds generalizing cfg with
  | nil => exact hdead
  | cons cmd rest ih =>
    rw [Config.run]
    refine ih (cfg.step cmd) (wf_step cfg hI cmd) ?_ ?_
    · intro hl1
      rcases step_live_inv cfg hI cmd sid hl1 with h1 | h1
      · exact hdead h1
      · omega
    · have := step_nextId_mono cfg cmd
      omega

theorem run_valueOf_stable (cfg : Config) (extra : List Cmd) (sid : Nat) (hI : Wf cfg)
    (hb : cfg.σ.live sid) :
    (cfg.run extra).σ.live sid → (cfg.run extra).σ.valueOf sid = cfg.σ.valueOf sid := by
  induction extra generalizing cfg with
  | nil => exact fun _ => rfl
  | cons cmd rest ih =>
    rw [Config.run]
    intro ha
    by_cases hl1 : (cfg.step cmd).σ.live sid
    · rw [ih (cfg.step cmd) (wf_step cfg hI cmd) hl1 ha]
      exact step_valueOf_stable cfg hI cmd sid hb hl1
    · exfalso
      have hlt1 : sid < (cfg.step cmd).σ.nextId := by
        have h1 := hI.keys_lt sid hb
        have h2 := step_nextId_mono cfg cmd
        omega
      exact run_dead (cfg.step cmd) rest sid (wf_step cfg hI cmd) hl1 hlt1 ha

theorem step_guard_mono (cfg : Config) (cmd : Cmd) (j : Nat) (g : LoadedSymbol)
    (hg : cfg.guards[j]? = some (some g)) :
    (cfg.step cmd).guards[j]? = some (some g)
      ∨ (cfg.step cmd).guards[j]? = some none := by
  have hjlen : j < cfg.guards.length := by
    obtain ⟨h1, _⟩ := List.getElem?_eq_some_iff.mp hg
    exact h1
  cases cmd with
  | reload =>
    unfold Config.step
    dsimp only
    cases ReloadableLibrary.reload cfg.handle cfg.σ with
    | mk r σ' =>
      cases r with
      | ok h' => exact Or.inl hg
      | error p => exact Or.inl hg
  | mkCursor name =>
    unfold Config.step
    dsimp only
    cases ReloadableLibrary.get_symbol cfg.handle name cfg.σ with
    | mk oc σ' => exact Or.inl hg
  | pin i =>
    unfold Config.step
    dsimp only
    cases cfg.cursors[i]? with
    | none => exact Or.inl hg
    | some oc =>
      cases oc with
      | none => exact Or.inl hg
      | some c =>
        dsimp only
        left
        rw [List.getElem?_append, if_pos hjlen]
        exact hg
  | dropGuard i =>
    unfold Config.step
    dsimp only
    cases cfg.guards[i]? with
    | none => exact Or.inl hg
    | some og =>
      cases og with
      | none => exact Or.inl hg
      | some g2 =>
        dsimp only
        by_cases hij : i = j
        · subst hij
          right
          rw [List.getElem?_set_self hjlen]
        · left
          rw [List.getElem?_set_ne hij]
          exact hg
  | dropCursor i =>
    unfold Config.step
    dsimp only
    cases cfg.cursors[i]? with
    | none => exact Or.inl hg
    | some oc =>
      cases oc with
      | none => exact Or.inl hg
      | some c => exact Or.inl hg

theorem step_guard_none_mono (cfg : Config) (cmd : Cmd) (j : Nat)
    (hg : cfg.guards[j]? = some none) :
    (cfg.step cmd).guards[j]? = some none := by
  have hjlen : j < cfg.guards.length := by
    obtain ⟨h1, _⟩ := List.getElem?_eq_some_iff.mp hg
    exact h1
  cases cmd with
  | reload =>
    unfold Config.step
    dsimp only
    cases ReloadableLibrary.reload cfg.handle cfg.σ with
    | mk r σ' =>
      cases r with
      | ok h' => exact hg
      | error p => exact hg
  | mkCursor name =>
    unfold Config.step
    dsimp only
    cases ReloadableLibrary.get_symbol cfg.handle name cfg.σ with
    | mk oc σ' => exact hg
  | pin i =>
    unfold Config.step
    dsimp only
    cases cfg.cursors[i]? with
    | none => exact hg
    | some oc =>
      cases oc with
      | none => exact hg
      | some c =>
        dsimp only
        rw [List.getElem?_append, if_pos hjlen]
        exact hg
  | dropGuard i =>
    unfold Config.step
    dsimp only
    cases cfg.guards[i]? with
    | none => exact hg
    | some og =>
      cases og with
      | none => exact hg
      | some g2 =>
        dsimp only
        by_cases hij : i = j
        · subst hij
          rw [List.getElem?_set_self hjlen]
        · rw [List.getElem?_set_ne hij]
          exact hg
  | dropCursor i =>
    unfold Config.step
    dsimp only
    cases cfg.cursors[i]? with
    | none => exact hg
    | some oc =>
      cases oc with
      | none => exact hg
      | some c => exact hg

theorem run_guard_none_mono (cfg : Config) (cmds : List Cmd) (j : Nat)
    (hg : cfg.guards[j]? = some none) :
    (cfg.run cmds).guards[j]? = some none := by
  induction cmds generalizing cfg with
  | nil => exact hg
  | cons cmd rest ih =>
    rw [Config.run]
    exact ih (cfg.step cmd) (step_guard_none_mono cfg cmd j hg)

theorem run_guard_persist (cfg : Config) (cmds : List Cmd) (j : Nat)
    (g g' : LoadedSymbol) (hg : cfg.guards[j]? = some (some g))
    (hend : (cfg.run cmds).guards[j]? = some (some g')) : g' = g := by
  induction cmds generalizing cfg with
  | nil =>
    rw [Config.run] at hend
    rw [hg] at hend
    exact (Option.some.inj (Option.some.inj hend)).symm
  | cons cmd rest ih =>
    rw [Config.run] at hend
    rcases step_guard_mono cfg cmd j g hg with h1 | h1
    · exact ih (cfg.step cmd) h1 hend
    · rw [run_guard_none_mono (cfg.step cmd) rest j h1] at hend
      cases hend

theorem run_guard_stable (cfg : Config) (cmds : List Cmd) (j : Nat)
    (g : LoadedSymbol) (hI : Wf cfg) (hg : cfg.guards[j]? = some (some g))
    (hend : (cfg.run cmds).guards[j]? = some (some g)) :
    (cfg.run cmds).σ.valueOf g._lib = cfg.σ.valueOf g._lib := by
  induction cmds generalizing cfg with
  | nil => rfl
  | cons cmd rest ih =>
    rw [Config.run] at hend ⊢
    rcases step_guard_mono cfg cmd j g hg with h1 | h1
    · have hWf1 := wf_step cfg hI cmd
      have hb : cfg.σ.live g._lib := hI.guard_live j g hg
      have ha : (cfg.step cmd).σ.live g._lib := hWf1.guard_live j g h1
      rw [ih (cfg.step cmd) hWf1 h1 hend]
      exact step_valueOf_stable cfg hI cmd g._lib hb ha
    · rw [run_guard_none_mono (cfg.step cmd) rest j h1] at hend
      cases hend

/-! ### Concrete fixtures for the claim witnesses -/

/-- A loader oracle for which no open ever succeeds. -/
def noLoader : Loader := ⟨fun _ _ => false, fun _ _ => none⟩

/-- A loader oracle for which every open succeeds but only the symbol
`"f"` resolves. -/
def gLoader : Loader :=
  ⟨fun _ _ => true, fun _ s => if s == "f" then some 7 else none⟩

/-- A loader oracle for which only the very first open succeeds: the
initial construction works, every later reload fails at the open. -/
def onceLoader : Loader :=
  ⟨fun k _ => k == 0, fun _ s => if s == "f" then some 7 else none⟩

/-- The configuration produced by constructing the library `"m"` with
symbol list `["f"]` against `onceLoader`. -/
def onceCfg : Config :=
  ⟨⟨"m", 0, ["f"]⟩, [], [],
    ⟨⟨onceLoader, 1, [Event.openEv 0]⟩, [⟨0, ⟨⟨0⟩, [7]⟩, 1⟩], 1⟩⟩

/-- The spec's running scenario: module `"m"` always opens; the symbol
`"f"` resolves to `0x1000` in the first module instance and to `0x2000`
in every later instance. -/
def scenarioLoader : Loader :=
  ⟨fun _ n => n == "m",
   fun mid s => if s == "f" then some (if mid = 0 then 0x1000 else 0x2000) else none⟩

/-- The configuration produced by constructing the library `"m"` with
symbol list `["f"]` against `scenarioLoader`. -/
def scenarioCfg : Config :=
  ⟨⟨"m", 0, ["f"]⟩, [], [],
    ⟨⟨scenarioLoader, 1, [Event.openEv 0]⟩, [⟨0, ⟨⟨0⟩, [0x1000]⟩, 1⟩], 1⟩⟩

/-! ### Last helpers for the claim theorems -/

theorem initConfig_inv (L : Loader) (name : CString) (symbols : List CString)
    (cfg0 : Config) (h : initConfig L name symbols = some cfg0) :
    cfg0.handle.name = name ∧ cfg0.handle.symbols = symbols ∧
    cfg0.σ.st.loader = L := by
  unfold initConfig at h
  by_cases ho : (Sys.empty L).st.loader.openOk (Sys.empty L).st.openCalls name = true
  · cases hres : resolvePointers (Sys.empty L).st.loader
        ⟨(Sys.empty L).st.openCalls⟩ symbols with
    | ok ptrs =>
      rw [new_spec_ok name symbols (Sys.empty L) ptrs ho hres] at h
      dsimp only at h
      rw [Option.some_inj] at h
      subst h
      exact ⟨rfl, rfl, rfl⟩
    | error p =>
      rw [new_spec_symFail name symbols (Sys.empty L) p ho hres] at h
      dsimp only at h
      cases h
  · rw [new_spec_openFail name symbols (Sys.empty L) (by simpa using ho)] at h
    dsimp only at h
    cases h

theorem guard_refsTo_pos (cfg : Config) (j : Nat) (g : LoadedSymbol)
    (hg : cfg.guards[j]? = some (some g)) : 0 < refsTo cfg g._lib := by
  unfold refsTo
  have := optCount_getElem (fun g' => if g'._lib = g._lib then 1 else 0)
    cfg.guards j g hg
  simp at this
  omega

theorem cursor_refsTo_pos (cfg : Config) (i : Nat) (c : ReloadableSymbol)
    (hc : cfg.cursors[i]? = some (some c)) : 0 < refsTo cfg c.raw_lib := by
  unfold refsTo
  have := optCount_getElem (fun c' => if c'.raw_lib = c.raw_lib then 1 else 0)
    cfg.cursors i c hc
  simp at this
  omega

theorem lt_length_of_getElem_cursor (l : List (Option ReloadableSymbol)) (i : Nat)
    (c : ReloadableSymbol) (h : l[i]? = some (some c)) : i < l.length := by
  by_contra hni
  rw [List.getElem?_eq_none (by omega)] at h
  cases h

theorem cursors_unchanged_nonpin (cfg : Config) (cmd : Cmd)
    (hnp : ∀ j, cmd ≠ Cmd.pin j) (i : Nat) (c0 c1 : ReloadableSymbol)
    (h0 : cfg.cursors[i]? = some (some c0))
    (h1 : (cfg.step cmd).cursors[i]? = some (some c1)) : c1 = c0 := by
  cases cmd with
  | reload =>
    unfold Config.step at h1
    dsimp only at h1
    cases hr : ReloadableLibrary.reload cfg.handle cfg.σ with
    | mk r σ' =>
      rw [hr] at h1
      cases r with
      | ok h' =>
        dsimp only at h1
        rw [h0] at h1
        exact (Option.some_inj.mp (Option.some_inj.mp h1)).symm
      | error p =>
        dsimp only at h1
        rw [h0] at h1
        exact (Option.some_inj.mp (Option.some_inj.mp h1)).symm
  | mkCursor name =>
    unfold Config.step at h1
    dsimp only at h1
    cases hg : ReloadableLibrary.get_symbol cfg.handle name cfg.σ with
    | mk oc σ' =>
      rw [hg] at h1
      dsimp only at h1
      rw [List.getElem?_append,
        if_pos (lt_length_of_getElem_cursor cfg.cursors i c0 h0)] at h1
      rw [h0] at h1
      exact (Option.some_inj.mp (Option.some_inj.mp h1)).symm
  | pin j => exact absurd rfl (hnp j)
  | dropGuard j =>
    unfold Config.step at h1
    dsimp only at h1
    cases hg : cfg.guards[j]? with
    | none =>
      rw [hg] at h1
      dsimp only at h1
      rw [h0] at h1
      exact (Option.some_inj.mp (Option.some_inj.mp h1)).symm
    | some o =>
      rw [hg] at h1
      cases o with
      | none =>
        dsimp only at h1
        rw [h0] at h1
        exact (Option.some_inj.mp (Option.some_inj.mp h1)).symm
      | some g =>
        dsimp only at h1
        rw [h0] at h1
        exact (Option.some_inj.mp (Option.some_inj.mp h1)).symm
  | dropCursor j =>
    unfold Config.step at h1
    dsimp only at h1
    cases hg : cfg.cursors[j]? with
    | none =>
      rw [hg] at h1
      dsimp only at h1
      rw [h0] at h1
      exact (Option.some_inj.mp (Option.some_inj.mp h1)).symm
    | some o =>
      rw [hg] at h1
      cases o with
      | none =>
        dsimp only at h1
        rw [h0] at h1
        exact (Option.some_inj.mp (Option.some_inj.mp h1)).symm
      | some c =>
        dsimp only at h1
        have := getElem_set_none_inv cfg.cursors j i c1 h1
        rw [h0] at this
        exact (Option.some_inj.mp (Option.some_inj.mp this)).symm

/-! ### C1 — construction atomicity and error signalling -/

/-- C1, counterexample to the claim as stated: the claim says an open
failure "signals ModuleNotFound (returned as an error, not a crash)".
In the code `ReloadableLibrary::new` returns plain `Self`, not a
`Result`: the open-failure path is
`Library::load(name).unwrap_or_else(|| panic!(...))`, which crashes the
caller.  `Panic` is this development's embedding of `panic!` unwinding,
so against the loader that refuses every open, constructing `"m"` ends
in the panic `couldNotLoadLibrary "m"` — a crash; no `ModuleNotFound`
error value exists anywhere in the program. -/
theorem C1_counterexample :
    (ReloadableLibrary.new "m" ["f"] (Sys.empty noLoader)).1
      = Except.error (Panic.couldNotLoadLibrary "m") := rfl

/-- C1 (amended): construction is all-or-nothing, but failures are
panics, not returned errors.  If the open fails, `new` panics naming
the module, with no open or close event and the heap untouched.  If the
open succeeds but a name fails to resolve, `new` panics naming the
first unresolved name (every earlier name resolves), the heap is
untouched and the just-opened module is closed exactly once by the
unwinding.  A handle is produced exactly when every name resolves, and
then the freshly installed snapshot holds one resolved pointer per
name, in order. -/
theorem C1_construction_all_or_nothing (name : CString) (symbols : List CString)
    (σ : Sys) :
    (σ.st.loader.openOk σ.st.openCalls name = false →
      ReloadableLibrary.new name symbols σ = (.error (.couldNotLoadLibrary name),
        { σ with st := { σ.st with openCalls := σ.st.openCalls + 1 } })) ∧
    (∀ p, σ.st.loader.openOk σ.st.openCalls name = true →
      resolvePointers σ.st.loader ⟨σ.st.openCalls⟩ symbols = .error p →
      (ReloadableLibrary.new name symbols σ).1 = .error p ∧
      (ReloadableLibrary.new name symbols σ).2.st.events
        = σ.st.events ++ [Event.openEv σ.st.openCalls]
          ++ [Event.closeEv σ.st.openCalls] ∧
      (ReloadableLibrary.new name symbols σ).2.heap = σ.heap ∧
      ∃ pre sym suf, symbols = pre ++ sym :: suf ∧
        (∀ s ∈ pre, (σ.st.loader.resolve σ.st.openCalls s).isSome = true) ∧
        σ.st.loader.resolve σ.st.openCalls sym = none ∧
        p = .couldNotFindSymbol sym) ∧
    (∀ ptrs, σ.st.loader.openOk σ.st.openCalls name = true →
      resolvePointers σ.st.loader ⟨σ.st.openCalls⟩ symbols = .ok ptrs →
      ReloadableLibrary.new name symbols σ
        = (.ok ⟨name, σ.nextId, symbols⟩, σ.afterBuild ptrs) ∧
      ptrs.length = symbols.length ∧
      ∀ i, i < symbols.length →
        σ.st.loader.resolve σ.st.openCalls (symbols.getD i "")
          = some (ptrs.getD i 0)) := by
  refine ⟨fun ho => new_spec_openFail name symbols σ ho,
    fun p ho hr => ?_, fun ptrs ho hr => ?_⟩
  · have hs := new_spec_symFail name symbols σ p ho hr
    exact ⟨by rw [hs], by rw [hs], by rw [hs],
      resolvePointers_error_spec σ.st.loader ⟨σ.st.openCalls⟩ symbols p hr⟩
  · exact ⟨new_spec_ok name symbols σ ptrs ho hr,
      resolvePointers_ok_length σ.st.loader ⟨σ.st.openCalls⟩ symbols ptrs hr,
      resolvePointers_ok_getD σ.st.loader ⟨σ.st.openCalls⟩ symbols ptrs hr⟩

/-- C1 witness: the amended theorem at the concrete loader that
resolves only `"f"`: building `"m"` over `["f", "g"]` panics naming
`"g"` and the event log shows the module opened and closed exactly
once. -/
theorem C1_witness :
    (ReloadableLibrary.new "m" ["f", "g"] (Sys.empty gLoader)).1
      = Except.error (Panic.couldNotFindSymbol "g") ∧
    (ReloadableLibrary.new "m" ["f", "g"] (Sys.empty gLoader)).2.st.events
      = [Event.openEv 0, Event.closeEv 0] := by
  have h := (C1_construction_all_or_nothing "m" ["f", "g"] (Sys.empty gLoader)).2.1
    (Panic.couldNotFindSymbol "g") rfl rfl
  refine ⟨h.1, ?_⟩
  rw [h.2.1]
  rfl

/-! ### C2 — reload is atomic on failure -/

/-- C2, counterexample to the claim as stated: the claim says on a
failed reload "an error is returned to the caller".  In the code
`ReloadableLibrary::reload` returns `()` and has no error channel: the
failure path is `Library::load(..).expect(...)`, a panic (`Panic`
being this development's embedding of `panic!` unwinding).  Against
the loader whose opens succeed only once, reloading the
already-constructed handle ends in the panic
`couldNotReloadLibrary "m"` instead of returning an error value. -/
theorem C2_counterexample :
    (ReloadableLibrary.reload onceCfg.handle onceCfg.σ).1
      = Except.error (Panic.couldNotReloadLibrary "m") := rfl

/-- C2 (amended): reload is atomic on failure, but the failure is a
panic, not a returned error.  Whenever `reload` fails — the module
cannot be reopened or a symbol cannot be re-resolved — the step leaves
the handle (hence the current snapshot), the heap, every cursor and
every guard untouched, and every subsequent pin on every existing
cursor returns the same guard (snapshot identity and address) it would
have returned before the failed reload. -/
theorem C2_reload_atomic_on_failure (cfg : Config) (p : Panic) (σ' : Sys)
    (hr : ReloadableLibrary.reload cfg.handle cfg.σ = (.error p, σ')) :
    cfg.step Cmd.reload = { cfg with σ := σ' } ∧
    (cfg.step Cmd.reload).handle = cfg.handle ∧
    (cfg.step Cmd.reload).σ.heap = cfg.σ.heap ∧
    (cfg.step Cmd.reload).cursors = cfg.cursors ∧
    (cfg.step Cmd.reload).guards = cfg.guards ∧
    ∀ c : ReloadableSymbol,
      (ReloadableSymbol.get_loaded c (cfg.step Cmd.reload).handle
          (cfg.step Cmd.reload).σ).1
        = (ReloadableSymbol.get_loaded c cfg.handle cfg.σ).1 := by
  have hstep := step_reload_error cfg p σ' hr
  have hheap := (reload_error_state cfg.handle cfg.σ p σ' hr).1
  refine ⟨hstep, by rw [hstep], by rw [hstep]; exact hheap, by rw [hstep],
    by rw [hstep], ?_⟩
  intro c
  rw [hstep]
  dsimp only
  rw [get_loaded_addr c cfg.handle σ', get_loaded_addr c cfg.handle cfg.σ,
    valueOf_of_heap_eq cfg.σ σ' hheap cfg.handle.inner]

/-- C2 witness: against the loader whose opens succeed only once, the
failed reload step leaves the configuration's snapshot slot untouched
and a pin on a cursor still yields the pre-reload guard. -/
theorem C2_witness :
    onceCfg.step Cmd.reload
      = { onceCfg with
          σ := ⟨⟨onceLoader, 2, [Event.openEv 0]⟩, [⟨0, ⟨⟨0⟩, [7]⟩, 1⟩], 1⟩ } ∧
    (ReloadableSymbol.get_loaded ⟨0, 0⟩ (onceCfg.step Cmd.reload).handle
        (onceCfg.step Cmd.reload).σ).1
      = (ReloadableSymbol.get_loaded ⟨0, 0⟩ onceCfg.handle onceCfg.σ).1 := by
  have h := C2_reload_atomic_on_failure onceCfg (Panic.couldNotReloadLibrary "m")
    ⟨⟨onceLoader, 2, [Event.openEv 0]⟩, [⟨0, ⟨⟨0⟩, [7]⟩, 1⟩], 1⟩ rfl
  exact ⟨h.1, h.2.2.2.2.2 ⟨0, 0⟩⟩

/-! ### C3 — exactly-once, last-reference close -/

/-- C3: exactly-once, last-reference close.  Along every client trace
from a constructed library, (a) no module instance is ever closed more
than once; (b) a module instance whose snapshot cell is gone from the
heap — every strong reference (cached cursors, live guards, the
current slot) has been released — has been closed exactly as many
times as it was opened, so it is never leaked; and (c) while any
strong reference to a snapshot remains, the snapshot's cell is still
live and its module instance has never been closed — in particular a
snapshot replaced by a successful reload is not closed at the moment
of replacement when a reference remains. -/
theorem C3_exactly_once_close (L : Loader) (name : CString)
    (symbols : List CString) (cfg0 : Config) (cmds : List Cmd)
    (hinit : initConfig L name symbols = some cfg0) :
    (∀ mid, closesOf (cfg0.run cmds).σ.st.events mid ≤ 1) ∧
    (∀ mid, heapCount (cfg0.run cmds).σ mid = 0 →
      closesOf (cfg0.run cmds).σ.st.events mid
        = opensOf (cfg0.run cmds).σ.st.events mid) ∧
    (∀ sid, 0 < refsTo (cfg0.run cmds) sid →
      (cfg0.run cmds).σ.live sid ∧
      closesOf (cfg0.run cmds).σ.st.events
        (((cfg0.run cmds).σ.valueOf sid)._lib.module) = 0) := by
  have hWf := wf_run cfg0 (wf_init L name symbols cfg0 hinit) cmds
  refine ⟨fun mid => hWf.closes_le_one mid, fun mid h0 => ?_,
    fun sid hpos => hWf.referenced_not_closed sid hpos⟩
  have := hWf.acct mid
  omega

/-- C3 witness: in the spec scenario, after creating a cursor, pinning
it and reloading, the first module instance is closed at most once,
and — the old snapshot still being referenced by the cursor's cache
and the guard — it is still live and not yet closed at all. -/
theorem C3_witness :
    closesOf ((scenarioCfg.run
        [Cmd.mkCursor "f", Cmd.pin 0, Cmd.reload]).σ.st.events) 0 ≤ 1 ∧
    ((scenarioCfg.run [Cmd.mkCursor "f", Cmd.pin 0, Cmd.reload]).σ.live 0 ∧
      closesOf (scenarioCfg.run
          [Cmd.mkCursor "f", Cmd.pin 0, Cmd.reload]).σ.st.events
        (((scenarioCfg.run
            [Cmd.mkCursor "f", Cmd.pin 0, Cmd.reload]).σ.valueOf 0)._lib.module)
        = 0) := by
  have h := C3_exactly_once_close scenarioLoader "m" ["f"] scenarioCfg
    [Cmd.mkCursor "f", Cmd.pin 0, Cmd.reload] rfl
  exact ⟨h.1 0, h.2.2 0 (by decide)⟩

/-! ### C4 — pinned-access stability -/

/-- C4: pinned-access stability.  Start from a constructed library,
run any trace, and look at a guard held in slot `j`.  (a) While held,
the pinned snapshot is live and its module instance has never been
closed.  (b) Across any further trace the slot can only keep exactly
this guard or be dropped — its snapshot identity and address never
change.  (c) If after the further trace (containing any number of
reloads) the guard is still held, the pinned snapshot is still live,
its payload — and hence the exposed address — is unchanged, and its
module instance has still never been closed. -/
theorem C4_pinned_access_stable (L : Loader) (name : CString)
    (symbols : List CString) (cfg0 : Config) (cmds extra : List Cmd) (j : Nat)
    (g : LoadedSymbol) (hinit : initConfig L name symbols = some cfg0)
    (hg : (cfg0.run cmds).guards[j]? = some (some g)) :
    ((cfg0.run cmds).σ.live g._lib ∧
      closesOf (cfg0.run cmds).σ.st.events
        (((cfg0.run cmds).σ.valueOf g._lib)._lib.module) = 0) ∧
    (∀ g', ((cfg0.run cmds).run extra).guards[j]? = some (some g') → g' = g) ∧
    (((cfg0.run cmds).run extra).guards[j]? = some (some g) →
      ((cfg0.run cmds).run extra).σ.live g._lib ∧
      ((cfg0.run cmds).run extra).σ.valueOf g._lib
        = (cfg0.run cmds).σ.valueOf g._lib ∧
      closesOf ((cfg0.run cmds).run extra).σ.st.events
        ((((cfg0.run cmds).run extra).σ.valueOf g._lib)._lib.module) = 0) := by
  have hWf := wf_run cfg0 (wf_init L name symbols cfg0 hinit) cmds
  refine ⟨hWf.referenced_not_closed g._lib (guard_refsTo_pos _ j g hg),
    fun g' hend => run_guard_persist (cfg0.run cmds) extra j g g' hg hend,
    fun hend => ?_⟩
  have hWfe := wf_run (cfg0.run cmds) hWf extra
  have hnce := hWfe.referenced_not_closed g._lib (guard_refsTo_pos _ j g hend)
  exact ⟨hnce.1, run_guard_stable (cfg0.run cmds) extra j g hWf hg hend, hnce.2⟩

/-- C4 witness: in the spec scenario a guard pinned before the reload
still pins a live snapshot with unchanged payload after the reload —
it still reports address `0x1000` while the new snapshot carries
`0x2000`. -/
theorem C4_witness :
    ((scenarioCfg.run [Cmd.mkCursor "f", Cmd.pin 0]).run [Cmd.reload]).σ.live
      (⟨0, 0x1000⟩ : LoadedSymbol)._lib ∧
    ((scenarioCfg.run [Cmd.mkCursor "f", Cmd.pin 0]).run [Cmd.reload]).σ.valueOf
        (⟨0, 0x1000⟩ : LoadedSymbol)._lib
      = (scenarioCfg.run [Cmd.mkCursor "f", Cmd.pin 0]).σ.valueOf
          (⟨0, 0x1000⟩ : LoadedSymbol)._lib := by
  have h := C4_pinned_access_stable scenarioLoader "m" ["f"] scenarioCfg
    [Cmd.mkCursor "f", Cmd.pin 0] [Cmd.reload] 0 ⟨0, 0x1000⟩ rfl (by decide)
  exact ⟨(h.2.2 (by decide)).1, (h.2.2 (by decide)).2.1⟩

/-! ### C5 — the pin refresh protocol -/

/-- C5: pin refresh protocol.  `get_loaded` compares the cursor's
cached snapshot reference with the handle's current one by allocation
identity (`Arc::ptr_eq`) — the payloads are never inspected.  When the
identities agree the cache is left exactly as it was and only the
guard's reference is added; when they differ (and only then) the
cursor's cache is replaced by a fresh strong reference to the current
snapshot — current gains two references (cache and guard), the old
cached snapshot loses one.  Either way the returned guard pins the
handle's current snapshot and exposes the address at the cursor's
fixed index within it.  Finally, no client operation other than a pin
ever changes a surviving cursor's cache. -/
theorem C5_pin_refresh (c : ReloadableSymbol) (h : ReloadableLibrary) (σ : Sys)
    (hnd : (keysOf σ.heap).Nodup) (hlc : σ.live c.raw_lib)
    (hli : σ.live h.inner) (hpos : 0 < σ.rcOf c.raw_lib) :
    ((ReloadableSymbol.get_loaded c h σ).1
      = ⟨h.inner, (σ.valueOf h.inner).pointers.getD c.symbol_index 0⟩) ∧
    ((ReloadableSymbol.get_loaded c h σ).2.1.symbol_index = c.symbol_index) ∧
    (c.raw_lib = h.inner →
      (ReloadableSymbol.get_loaded c h σ).2.1 = c ∧
      ∀ y, (ReloadableSymbol.get_loaded c h σ).2.2.rcOf y
        = σ.rcOf y + (if y = h.inner then 1 else 0)) ∧
    (c.raw_lib ≠ h.inner →
      (ReloadableSymbol.get_loaded c h σ).2.1 = { c with raw_lib := h.inner } ∧
      (ReloadableSymbol.get_loaded c h σ).2.2.rcOf h.inner
        = σ.rcOf h.inner + 2 ∧
      (ReloadableSymbol.get_loaded c h σ).2.2.rcOf c.raw_lib
        = σ.rcOf c.raw_lib - 1) ∧
    (∀ (cfg : Config) (cmd : Cmd), (∀ j, cmd ≠ Cmd.pin j) →
      ∀ (i : Nat) (c0 c1 : ReloadableSymbol),
        cfg.cursors[i]? = some (some c0) →
        (cfg.step cmd).cursors[i]? = some (some c1) → c1 = c0) := by
  by_cases heq : c.raw_lib = h.inner
  · obtain ⟨σ', hgl, _, _, _, _, _, _, hrc⟩ :=
      get_loaded_spec_eq c h σ heq hnd hli
    refine ⟨get_loaded_addr c h σ, by rw [hgl],
      fun _ => ⟨by rw [hgl], fun y => ?_⟩,
      fun hne => absurd heq hne, cursors_unchanged_nonpin⟩
    rw [hgl]
    exact hrc y
  · obtain ⟨σ', hgl, _, _, _, hrci, hrcc, _, _, _, _, _, _⟩ :=
      get_loaded_spec_ne c h σ heq hnd hlc hli hpos
    refine ⟨get_loaded_addr c h σ, by rw [hgl], fun he => absurd he heq,
      fun _ => ⟨by rw [hgl], ?_, ?_⟩, cursors_unchanged_nonpin⟩
    · rw [hgl]
      exact hrci
    · rw [hgl]
      exact hrcc

/-- C5 witness: in the spec scenario, pinning the stale cursor (cached
snapshot `0`) against the post-reload handle (current snapshot `1`)
refreshes the cache to snapshot `1` and drops one reference from the
old snapshot. -/
theorem C5_witness :
    ((ReloadableSymbol.get_loaded ⟨0, 0⟩ ⟨"m", 1, ["f"]⟩
        (scenarioCfg.run [Cmd.mkCursor "f", Cmd.reload]).σ).2.1
      = { (⟨0, 0⟩ : ReloadableSymbol) with raw_lib := 1 }) ∧
    ((ReloadableSymbol.get_loaded ⟨0, 0⟩ ⟨"m", 1, ["f"]⟩
        (scenarioCfg.run [Cmd.mkCursor "f", Cmd.reload]).σ).2.2.rcOf
        (⟨0, 0⟩ : ReloadableSymbol).raw_lib
      = (scenarioCfg.run [Cmd.mkCursor "f", Cmd.reload]).σ.rcOf
          (⟨0, 0⟩ : ReloadableSymbol).raw_lib - 1) := by
  have h := C5_pin_refresh ⟨0, 0⟩ ⟨"m", 1, ["f"]⟩
    (scenarioCfg.run [Cmd.mkCursor "f", Cmd.reload]).σ
    (by decide) (by rfl) (by rfl) (by decide)
  exact ⟨(h.2.2.2.1 (by decide)).1, (h.2.2.2.1 (by decide)).2.2⟩

/-! ### C6 — first-match symbol lookup -/

/-- C6: `symbol_cursor` lookup.  For every handle and name: when the
name is absent from the fixed list the lookup returns a plain `none`
and leaves the state untouched; every returned cursor is bound to the
first index whose entry equals the name (every earlier entry differs)
and caches the handle's current snapshot; a cursor is returned
whenever the name is present; and the lookup never touches the native
module — the loader-facing state (call counter, event log, oracle) is
unchanged. -/
theorem C6_symbol_cursor_lookup (h : ReloadableLibrary) (sym : CString)
    (σ : Sys) :
    (sym ∉ h.symbols → ReloadableLibrary.get_symbol h sym σ = (none, σ)) ∧
    (∀ c σ2, ReloadableLibrary.get_symbol h sym σ = (some c, σ2) →
      c.symbol_index < h.symbols.length ∧
      h.symbols.getD c.symbol_index "" = sym ∧
      (∀ j, j < c.symbol_index → h.symbols.getD j "" ≠ sym) ∧
      c.raw_lib = h.inner) ∧
    (sym ∈ h.symbols →
      ∃ c σ2, ReloadableLibrary.get_symbol h sym σ = (some c, σ2)) ∧
    (ReloadableLibrary.get_symbol h sym σ).2.st = σ.st := by
  refine ⟨fun habs => ?_, fun c σ2 hgs => ?_, fun hmem => ?_,
    (get_symbol_sys h sym σ).1⟩
  · unfold ReloadableLibrary.get_symbol
    rw [(findIdx_none_iff h.symbols sym).mpr habs]
  · unfold ReloadableLibrary.get_symbol at hgs
    cases hf : h.symbols.findIdx? (fun x => x == sym) with
    | none => rw [hf] at hgs; cases hgs
    | some i =>
      rw [hf] at hgs
      dsimp only at hgs
      have hc := Option.some_inj.mp (congrArg Prod.fst hgs)
      obtain ⟨hi1, hi2, hi3⟩ := findIdx_first h.symbols sym i hf
      rw [← hc]
      exact ⟨hi1, hi2, hi3, rfl⟩
  · cases hf : h.symbols.findIdx? (fun x => x == sym) with
    | none => exact absurd hmem ((findIdx_none_iff h.symbols sym).mp hf)
    | some i =>
      refine ⟨⟨i, h.inner⟩, Sys.incRef h.inner σ, ?_⟩
      unfold ReloadableLibrary.get_symbol
      rw [hf]

/-- C6 witness: on the handle with symbol list `["a", "b", "a"]`, the
lookup of `"a"` yields the cursor bound to index `0` (never index
`2`), caching the current snapshot, with the loader-facing state
untouched. -/
theorem C6_witness :
    (⟨0, 0⟩ : ReloadableSymbol).symbol_index
        < (⟨"m", 0, ["a", "b", "a"]⟩ : ReloadableLibrary).symbols.length ∧
    (⟨"m", 0, ["a", "b", "a"]⟩ : ReloadableLibrary).symbols.getD
        (⟨0, 0⟩ : ReloadableSymbol).symbol_index "" = "a" ∧
    (⟨0, 0⟩ : ReloadableSymbol).raw_lib
      = (⟨"m", 0, ["a", "b", "a"]⟩ : ReloadableLibrary).inner ∧
    (ReloadableLibrary.get_symbol ⟨"m", 0, ["a", "b", "a"]⟩ "a"
        (Sys.empty noLoader)).2.st = (Sys.empty noLoader).st := by
  have h := C6_symbol_cursor_lookup ⟨"m", 0, ["a", "b", "a"]⟩ "a"
    (Sys.empty noLoader)
  have h2 := h.2.1 ⟨0, 0⟩ (Sys.incRef 0 (Sys.empty noLoader)) rfl
  exact ⟨h2.1, h2.2.1, h2.2.2.2, h.2.2.2⟩

/-! ### C7 — reload visibility -/

/-- C7: reload visibility.  After a successful reload the handle's
atomic slot holds exactly the freshly allocated snapshot (the single
slot is swapped in one store, so a reader of the slot sees either the
old or the new allocation, never a torn or absent value); the new
snapshot is live and its payload is precisely the freshly resolved
pointer list; and every subsequent pin, through any cursor whatsoever,
returns a guard whose snapshot is the new allocation and whose address
comes from the new pointer list at the cursor's index — never a mix of
old and new entries. -/
theorem C7_reload_visibility (L : Loader) (name : CString)
    (symbols : List CString) (cfg0 : Config) (cmds : List Cmd)
    (ptrs : List Addr) (hinit : initConfig L name symbols = some cfg0)
    (ho : (cfg0.run cmds).σ.st.loader.openOk (cfg0.run cmds).σ.st.openCalls
        (cfg0.run cmds).handle.name = true)
    (hr : resolvePointers (cfg0.run cmds).σ.st.loader
        ⟨(cfg0.run cmds).σ.st.openCalls⟩ (cfg0.run cmds).handle.symbols
      = .ok ptrs) :
    ((cfg0.run cmds).step Cmd.reload).handle.inner
      = (cfg0.run cmds).σ.nextId ∧
    ((cfg0.run cmds).step Cmd.reload).σ.live (cfg0.run cmds).σ.nextId ∧
    ((cfg0.run cmds).step Cmd.reload).σ.valueOf (cfg0.run cmds).σ.nextId
      = ⟨⟨(cfg0.run cmds).σ.st.openCalls⟩, ptrs⟩ ∧
    (∀ c : ReloadableSymbol,
      (ReloadableSymbol.get_loaded c ((cfg0.run cmds).step Cmd.reload).handle
          ((cfg0.run cmds).step Cmd.reload).σ).1
        = ⟨(cfg0.run cmds).σ.nextId, ptrs.getD c.symbol_index 0⟩) ∧
    ptrs.length = symbols.length := by
  have hWf := wf_run cfg0 (wf_init L name symbols cfg0 hinit) cmds
  have hrs := reload_spec_ok (cfg0.run cmds).handle (cfg0.run cmds).σ ptrs ho hr
  have hstep : (cfg0.run cmds).step Cmd.reload
      = { cfg0.run cmds with
          handle := { (cfg0.run cmds).handle with
            inner := (cfg0.run cmds).σ.nextId },
          σ := Sys.decRef (cfg0.run cmds).handle.inner
            ((cfg0.run cmds).σ.afterBuild ptrs) } := by
    unfold Config.step
    dsimp only
    rw [hrs]
  have hne : (cfg0.run cmds).σ.nextId ≠ (cfg0.run cmds).handle.inner := by
    have := hWf.keys_lt (cfg0.run cmds).handle.inner hWf.current_live
    omega
  have hfresh := Sys.fresh_none (cfg0.run cmds).σ hWf.keys_lt
  have hval : (Sys.decRef (cfg0.run cmds).handle.inner
        ((cfg0.run cmds).σ.afterBuild ptrs)).valueOf (cfg0.run cmds).σ.nextId
      = ⟨⟨(cfg0.run cmds).σ.st.openCalls⟩, ptrs⟩ := by
    rw [Sys.valueOf_decRef_ne ((cfg0.run cmds).σ.afterBuild ptrs)
      (cfg0.run cmds).handle.inner (cfg0.run cmds).σ.nextId hne]
    exact afterBuild_valueOf_self (cfg0.run cmds).σ ptrs hfresh
  have hlive : (Sys.decRef (cfg0.run cmds).handle.inner
        ((cfg0.run cmds).σ.afterBuild ptrs)).live (cfg0.run cmds).σ.nextId := by
    rw [Sys.live_decRef_ne ((cfg0.run cmds).σ.afterBuild ptrs)
      (cfg0.run cmds).handle.inner (cfg0.run cmds).σ.nextId hne,
      afterBuild_live (cfg0.run cmds).σ ptrs (cfg0.run cmds).σ.nextId hfresh]
    exact Or.inl rfl
  have hlen := resolvePointers_ok_length (cfg0.run cmds).σ.st.loader
    ⟨(cfg0.run cmds).σ.st.openCalls⟩ (cfg0.run cmds).handle.symbols ptrs hr
  rw [(run_handle_fixed cfg0 cmds).2,
    (initConfig_inv L name symbols cfg0 hinit).2.1] at hlen
  refine ⟨by rw [hstep], by rw [hstep]; exact hlive, by rw [hstep]; exact hval,
    fun c => ?_, hlen⟩
  rw [hstep]
  dsimp only
  rw [get_loaded_addr c { (cfg0.run cmds).handle with
      inner := (cfg0.run cmds).σ.nextId }
    (Sys.decRef (cfg0.run cmds).handle.inner
      ((cfg0.run cmds).σ.afterBuild ptrs))]
  dsimp only
  rw [hval]

/-- C7 witness: in the spec scenario, reloading after creating a
cursor installs the fresh snapshot, and a pin through the pre-reload
cursor reads its address from the new pointer list `[0x2000]`. -/
theorem C7_witness :
    ((scenarioCfg.run [Cmd.mkCursor "f"]).step Cmd.reload).handle.inner
      = (scenarioCfg.run [Cmd.mkCursor "f"]).σ.nextId ∧
    (ReloadableSymbol.get_loaded ⟨0, 0⟩
        ((scenarioCfg.run [Cmd.mkCursor "f"]).step Cmd.reload).handle
        ((scenarioCfg.run [Cmd.mkCursor "f"]).step Cmd.reload).σ).1
      = ⟨(scenarioCfg.run [Cmd.mkCursor "f"]).σ.nextId,
          [0x2000].getD (⟨0, 0⟩ : ReloadableSymbol).symbol_index 0⟩ := by
  have h := C7_reload_visibility scenarioLoader "m" ["f"] scenarioCfg
    [Cmd.mkCursor "f"] [0x2000] rfl rfl rfl
  exact ⟨h.1, h.2.2.2.1 ⟨0, 0⟩⟩

/-! ### C8 — the snapshot shape invariant -/

/-- C8: snapshot shape invariant.  Every live snapshot in every
reachable state — in particular every snapshot ever installed as
current — holds one module instance together with an ordered pointer
list of exactly the length of the handle's fixed name list, whose
entry at each index is the loader's resolution of the name at that
index in that module instance; and the payload is immutable: it stays
exactly the same across any further trace for as long as the snapshot
is live. -/
theorem C8_snapshot_shape (L : Loader) (name : CString)
    (symbols : List CString) (cfg0 : Config) (cmds : List Cmd) (sid : Nat)
    (hinit : initConfig L name symbols = some cfg0)
    (hlive : (cfg0.run cmds).σ.live sid) :
    ((cfg0.run cmds).σ.valueOf sid).pointers.length = symbols.length ∧
    (∀ i, i < symbols.length →
      L.resolve ((cfg0.run cmds).σ.valueOf sid)._lib.module (symbols.getD i "")
        = some (((cfg0.run cmds).σ.valueOf sid).pointers.getD i 0)) ∧
    (∀ extra, ((cfg0.run cmds).run extra).σ.live sid →
      ((cfg0.run cmds).run extra).σ.valueOf sid
        = (cfg0.run cmds).σ.valueOf sid) := by
  have hWf := wf_run cfg0 (wf_init L name symbols cfg0 hinit) cmds
  obtain ⟨hname, hsyms, hload⟩ := initConfig_inv L name symbols cfg0 hinit
  have hsymsr : (cfg0.run cmds).handle.symbols = symbols :=
    (run_handle_fixed cfg0 cmds).2.trans hsyms
  have hloadr : (cfg0.run cmds).σ.st.loader = L :=
    (run_loader_fixed cfg0 cmds).trans hload
  obtain ⟨hlen, hres⟩ := hWf.shape sid hlive
  rw [hsymsr] at hlen
  refine ⟨hlen, fun i hi => ?_, fun extra hle =>
    run_valueOf_stable (cfg0.run cmds) extra sid hWf hlive hle⟩
  have hr := hres i (by rw [hsymsr]; exact hi)
  rw [hsymsr, hloadr] at hr
  exact hr

/-- C8 witness: in the spec scenario the initial snapshot has one
pointer for the one name, that pointer is the loader's resolution of
`"f"` in module instance `0`, and the payload survives a cursor
creation unchanged. -/
theorem C8_witness :
    ((scenarioCfg.run []).σ.valueOf 0).pointers.length
      = (["f"] : List CString).length ∧
    scenarioLoader.resolve ((scenarioCfg.run []).σ.valueOf 0)._lib.module
        ((["f"] : List CString).getD 0 "")
      = some (((scenarioCfg.run []).σ.valueOf 0).pointers.getD 0 0) ∧
    ((scenarioCfg.run []).run [Cmd.mkCursor "f"]).σ.valueOf 0
      = (scenarioCfg.run []).σ.valueOf 0 := by
  have h := C8_snapshot_shape scenarioLoader "m" ["f"] scenarioCfg [] 0 rfl
    (by rfl)
  exact ⟨h.1, h.2.1 0 (by decide), h.2.2 [Cmd.mkCursor "f"] (by rfl)⟩

/-! ### C9 — cursors hold a strong snapshot reference -/

/-- C9: cursor creation caches a strong snapshot reference.  Every
cursor returned by `get_symbol` caches exactly the snapshot that was
current at creation, and the cache adds one to that snapshot's strong
count.  Consequently, along any further trace (reloads included), as
long as the cursor slot still holds this cursor with this cache —
i.e. it has neither been dropped nor been refreshed by a pin to a
different snapshot — the cached snapshot stays live and its module
instance has never been closed, even when no guard for it exists. -/
theorem C9_cursor_strong_ref (h : ReloadableLibrary) (sym : CString) (σ : Sys)
    (c : ReloadableSymbol) (σ2 : Sys) (hlive : σ.live h.inner)
    (hgs : ReloadableLibrary.get_symbol h sym σ = (some c, σ2)) :
    (c.raw_lib = h.inner ∧ σ2.rcOf h.inner = σ.rcOf h.inner + 1) ∧
    ∀ (cfg : Config) (cmds : List Cmd) (i : Nat), Wf cfg →
      cfg.cursors[i]? = some (some c) →
      (cfg.run cmds).cursors[i]? = some (some c) →
      (cfg.run cmds).σ.live c.raw_lib ∧
      closesOf (cfg.run cmds).σ.st.events
        (((cfg.run cmds).σ.valueOf c.raw_lib)._lib.module) = 0 := by
  constructor
  · unfold ReloadableLibrary.get_symbol at hgs
    cases hf : h.symbols.findIdx? (fun x => x == sym) with
    | none => rw [hf] at hgs; cases hgs
    | some i =>
      rw [hf] at hgs
      dsimp only at hgs
      have hc := Option.some_inj.mp (congrArg Prod.fst hgs)
      have hσ := congrArg Prod.snd hgs
      dsimp only at hσ
      refine ⟨by rw [← hc], ?_⟩
      rw [← hσ, Sys.rcOf_incRef σ h.inner h.inner hlive, if_pos rfl]
  · intro cfg cmds i hWf hc0 hcend
    exact (wf_run cfg hWf cmds).referenced_not_closed c.raw_lib
      (cursor_refsTo_pos (cfg.run cmds) i c hcend)

/-- C9 witness: in the spec scenario a cursor created before the
reload caches snapshot `0`; after the reload — with no guard in
existence — that snapshot is still live and module instance `0` has
not been closed. -/
theorem C9_witness :
    ((⟨0, 0⟩ : ReloadableSymbol).raw_lib
      = (⟨"m", 0, ["f"]⟩ : ReloadableLibrary).inner) ∧
    ((scenarioCfg.step (Cmd.mkCursor "f")).run [Cmd.reload]).σ.live
      (⟨0, 0⟩ : ReloadableSymbol).raw_lib ∧
    closesOf
      ((scenarioCfg.step (Cmd.mkCursor "f")).run [Cmd.reload]).σ.st.events
      ((((scenarioCfg.step (Cmd.mkCursor "f")).run [Cmd.reload]).σ.valueOf
          (⟨0, 0⟩ : ReloadableSymbol).raw_lib)._lib.module) = 0 := by
  have h := C9_cursor_strong_ref ⟨"m", 0, ["f"]⟩ "f" scenarioCfg.σ ⟨0, 0⟩
    (Sys.incRef 0 scenarioCfg.σ) (by rfl) rfl
  have h2 := h.2 (scenarioCfg.step (Cmd.mkCursor "f")) [Cmd.reload] 0
    (wf_step scenarioCfg (wf_init scenarioLoader "m" ["f"] scenarioCfg rfl)
      (Cmd.mkCursor "f")) rfl rfl
  exact ⟨h.1.1, h2.1, h2.2⟩

/-! ### C10 — in-bounds indexing -/

/-- C10: in-bounds indexing safety.  Along every trace from a
constructed library, every held cursor's stored index is strictly
below the length of the handle's fixed name list, and every live
snapshot's pointer list has exactly that length — so the index is
strictly below the pointer-list length of every snapshot the pin could
ever read from, and the indexing in `get_loaded` cannot go out of
bounds. -/
theorem C10_inbounds_indexing (L : Loader) (name : CString)
    (symbols : List CString) (cfg0 : Config) (cmds : List Cmd) (i : Nat)
    (c : ReloadableSymbol) (sid : Nat)
    (hinit : initConfig L name symbols = some cfg0)
    (hc : (cfg0.run cmds).cursors[i]? = some (some c))
    (hlive : (cfg0.run cmds).σ.live sid) :
    c.symbol_index < symbols.length ∧
    c.symbol_index < ((cfg0.run cmds).σ.valueOf sid).pointers.length := by
  have hWf := wf_run cfg0 (wf_init L name symbols cfg0 hinit) cmds
  have hidx := hWf.cursor_idx i c hc
  have hsymsr : (cfg0.run cmds).handle.symbols = symbols :=
    (run_handle_fixed cfg0 cmds).2.trans
      (initConfig_inv L name symbols cfg0 hinit).2.1
  rw [hsymsr] at hidx
  have hlen := (hWf.shape sid hlive).1
  rw [hsymsr] at hlen
  exact ⟨hidx, by omega⟩

/-- C10 witness: in the spec scenario the cursor created before the
reload carries index `0`, in bounds both for the name list and for the
pointer list of the post-reload snapshot `1`. -/
theorem C10_witness :
    (⟨0, 0⟩ : ReloadableSymbol).symbol_index < (["f"] : List CString).length ∧
    (⟨0, 0⟩ : ReloadableSymbol).symbol_index
      < ((scenarioCfg.run
          [Cmd.mkCursor "f", Cmd.reload]).σ.valueOf 1).pointers.length :=
  C10_inbounds_indexing scenarioLoader "m" ["f"] scenarioCfg
    [Cmd.mkCursor "f", Cmd.reload] 0 ⟨0, 0⟩ 1 rfl (by rfl) (by rfl)

end Reloadable
